import Mathlib

/-!
Verification of the go7z 7z-archive reader (github.com/saracen/go7z).

This file shallowly embeds the parts of the Go source relevant to the
checked properties and proves theorems about them:

  * the header primitive decoders (`ReadByte`, `ReadNumber`, `ReadNumberInt`,
    `ReadBoolVector`, `ReadOptionalBoolVector`, `ReadDigests`) from
    `headers/pack_info.go` and `headers/digests.go`;
  * the pack-info parser `ReadPackInfo` from `headers/pack_info.go`;
  * the folder parser `ReadFolder` and its helper structures from
    `headers/folder.go`;
  * the sub-streams parser `ReadSubStreamsInfo` from `headers/streams_info.go`;
  * the reader facade (`Reader.Next`, `Reader.Read`, `extract`) from
    `reader.go`, with the external solidblock sequencer library abstracted
    as a deterministic response oracle;
  * the AES key-derivation manager from `filters/aes.go`, with SHA-256
    abstracted as an arbitrary digest function.

Byte streams are embedded as `List Nat` (each element a byte value),
machine integers as `Nat` with explicit `% 2 ^ 64` where Go's `uint64`
wraps, and Go's `(value, error)` returns as `Except`.
-/

namespace Go7z

/-- Error values surfaced by the Go code. `eof` stands for Go's `io.EOF`
(also what a short read of the underlying byte stream reports). -/
inductive GoErr where
  | eof
  | unexpectedPropertyID
  | packInfoCRCsNotImplemented
  | invalidNumber
  | invalidCoderInFolderCount
  | invalidStreamCount
  | invalidPropertyDataSize
  | invalidPackedStreamsCount
  | additionalStreamsNotImplemented
  | decompressorNotFound
  | notSupported
  | invalidPackInfoRef
  | invalidUnpackStreamRef
  | invalidUnpackSizeRef
  deriving DecidableEq, Repr

/-- A byte stream: the not-yet-consumed bytes of the reader. -/
abbrev Stream' := List Nat

/-- `ReadByte` (headers/pack_info.go): read a single byte. -/
def ReadByte (s : Stream') : Except GoErr (Nat × Stream') :=
  match s with
  | [] => .error .eof
  | b :: rest => .ok (b, rest)

/-- The loop body of `ReadNumber` (headers/pack_info.go):
`i` is the Go loop counter, `fuel` the remaining iterations (`8 - i`),
`value` and `mask` the mutable locals of the same names. -/
def readNumberAux (first : Nat) : Nat → Nat → Nat → Nat → Stream' →
    Except GoErr (Nat × Stream')
  | _, 0, value, _, s => .ok (value, s)
  | i, fuel + 1, value, mask, s =>
    if first &&& mask == 0 then
      .ok (value + ((first &&& (mask - 1)) <<< (i * 8)), s)
    else
      match s with
      | [] => .error .eof
      | v :: rest =>
        readNumberAux first (i + 1) fuel (value ||| (v <<< (8 * i))) (mask >>> 1) rest

/-- `ReadNumber` (headers/pack_info.go): reads a 7z encoded uint64. -/
def ReadNumber (s : Stream') : Except GoErr (Nat × Stream') :=
  match s with
  | [] => .error .eof
  | first :: rest => readNumberAux first 0 8 0 0x80 rest

/-- `MaxNumber` (headers/pack_info.go). -/
def MaxNumber : Nat := 0x7FFFFFFF

/-- `ReadNumberInt` (headers/pack_info.go): `ReadNumber` narrowed to `int`;
values above `MaxNumber` yield `ErrInvalidNumber`. -/
def ReadNumberInt (s : Stream') : Except GoErr (Nat × Stream') :=
  match ReadNumber s with
  | .error e => .error e
  | .ok (u64, rest) =>
    if u64 > MaxNumber then .error .invalidNumber else .ok (u64, rest)

/-- Little-endian value of a byte list. -/
def leBytes : List Nat → Nat
  | [] => 0
  | b :: rest => b + 256 * leBytes rest

/-- Specification-side decoder for the 7z variable-length integer: the
count of leading 1-bits of the first byte. -/
def leadingOnes (b : Nat) : Nat :=
  ((List.range 8).takeWhile (fun i => b.testBit (7 - i))).length

/-- Specification-side value of a 7z number: the extra bytes assembled
little-endian in the low-order positions and the remaining bits of the
first byte as the high-order bits. -/
def specNumberValue (first : Nat) (extra : List Nat) : Nat :=
  leBytes extra + (first % 2 ^ (7 - leadingOnes first)) * 2 ^ (8 * leadingOnes first)

/-- Property-id constants (headers/header.go). -/
def k7zEnd : Nat := 0

def k7zMainStreamsInfo : Nat := 4

def k7zPackInfo : Nat := 6

def k7zUnpackInfo : Nat := 7

def k7zSubStreamsInfo : Nat := 8

def k7zSize : Nat := 9

def k7zCRC : Nat := 10

def k7zFolder : Nat := 11

def k7zCodersUnpackSize : Nat := 12

def k7zNumUnpackStream : Nat := 13

/-- `PackInfo` (headers/pack_info.go). -/
structure PackInfo where
  packPos : Nat
  packSizes : List Nat
  deriving Repr, DecidableEq

/-- Sequential reading of `n` 7z numbers (specification helper used to state
which bytes a parser loop consumed). -/
def readNumbers : Nat → Stream' → Except GoErr (List Nat × Stream')
  | 0, s => .ok ([], s)
  | n + 1, s =>
    match ReadNumber s with
    | .error e => .error e
    | .ok (v, s') =>
      match readNumbers n s' with
      | .error e => .error e
      | .ok (vs, rest) => .ok (v :: vs, rest)

/-- The `k7zSize` branch of `ReadPackInfo` (headers/pack_info.go): the loop
`for i := 0; i < numPackStreams; i++ { packInfo.PackSizes[i], err = ... }`,
with `r` the remaining iterations. -/
def readPackSizesLoop : List Nat → Nat → Nat → Stream' → Except GoErr (List Nat × Stream')
  | sizes, _, 0, s => .ok (sizes, s)
  | sizes, i, r + 1, s =>
    match ReadNumber s with
    | .error e => .error e
    | .ok (v, s') => readPackSizesLoop (sizes.set i v) (i + 1) r s'

/-- The tag loop of `ReadPackInfo` (headers/pack_info.go). The Go loop
consumes at least one byte per iteration, so running it with fuel
`s.length + 1` is exact; the fuel-exhaustion branch is unreachable. -/
def readPackInfoLoop (numPackStreams : Nat) : PackInfo → Nat → Stream' → Except GoErr (PackInfo × Stream')
  | _, 0, _ => .error .eof
  | packInfo, fuel + 1, s =>
    match ReadByte s with
    | .error e => .error e
    | .ok (id, s') =>
      if id = k7zSize then
        match readPackSizesLoop (List.replicate (numPackStreams + 1) 0) 0 numPackStreams s' with
        | .error e => .error e
        | .ok (sizes, s'') =>
          readPackInfoLoop numPackStreams { packInfo with packSizes := sizes } fuel s''
      else if id = k7zCRC then .error .packInfoCRCsNotImplemented
      else if id = k7zEnd then .ok (packInfo, s')
      else .error .unexpectedPropertyID

/-- `ReadPackInfo` (headers/pack_info.go). -/
def ReadPackInfo (s : Stream') : Except GoErr (PackInfo × Stream') :=
  match ReadNumber s with
  | .error e => .error e
  | .ok (packPos, s1) =>
    match ReadNumberInt s1 with
    | .error e => .error e
    | .ok (numPackStreams, s2) =>
      readPackInfoLoop numPackStreams { packPos := packPos, packSizes := [] } (s2.length + 1) s2

/-- Size limits (headers/folder.go). -/
def MaxInOutStreams : Nat := 4

def MaxPropertyDataSize : Nat := 128

def MaxCodersInFolder : Nat := 4

def MaxPackedStreamsInFolder : Nat := 4

/-- `CoderInfo` (headers/folder.go). -/
structure CoderInfo where
  codecID : Nat
  properties : List Nat
  numInStreams : Nat
  numOutStreams : Nat
  deriving Repr, DecidableEq

/-- `BindPairsInfo` (headers/folder.go). -/
structure BindPairsInfo where
  inIndex : Nat
  outIndex : Nat
  deriving Repr, DecidableEq

/-- `Folder` (headers/folder.go). -/
structure Folder where
  coderInfo : List CoderInfo
  bindPairsInfo : List BindPairsInfo
  packedIndices : List Nat
  unpackSizes : List Nat
  unpackCRC : Nat
  deriving Repr, DecidableEq

/-- `Folder.NumInStreamsTotal` (headers/folder.go). -/
def Folder.NumInStreamsTotal (f : Folder) : Nat :=
  (f.coderInfo.map (fun c => c.numInStreams)).sum

/-- `Folder.NumOutStreamsTotal` (headers/folder.go). -/
def Folder.NumOutStreamsTotal (f : Folder) : Nat :=
  (f.coderInfo.map (fun c => c.numOutStreams)).sum

/-- `Folder.FindBindPairForInStream` (headers/folder.go): index of the first
bind pair whose in-index matches, `-1` when none does. -/
def Folder.FindBindPairForInStream (f : Folder) (inStreamIndex : Nat) : Int :=
  match f.bindPairsInfo.findIdx? (fun bp => bp.inIndex == inStreamIndex) with
  | some i => (i : Int)
  | none => -1

/-- `Folder.FindBindPairForOutStream` (headers/folder.go). -/
def Folder.FindBindPairForOutStream (f : Folder) (outStreamIndex : Nat) : Int :=
  match f.bindPairsInfo.findIdx? (fun bp => bp.outIndex == outStreamIndex) with
  | some i => (i : Int)
  | none => -1

/-- `Folder.UnpackSize` (headers/folder.go): the unpack size of the first
output stream not consumed by a bind pair, 0 when every output is consumed. -/
def Folder.UnpackSize (f : Folder) : Nat :=
  match (List.range f.unpackSizes.length).find?
      (fun i => decide (f.FindBindPairForOutStream i < 0)) with
  | some i => f.unpackSizes.getD i 0
  | none => 0

/-- Reading `n` raw bytes (`r.Read(b)` on a full buffer). -/
def readBytes (n : Nat) (s : Stream') : Except GoErr (List Nat × Stream') :=
  if s.length < n then .error .eof else .ok (s.take n, s.drop n)

/-- Big-endian assembly of the codec-id bytes
(`codecID |= b[i-1] << ((codecIDSize-i)*8)` in headers/folder.go). -/
def beBytes (bs : List Nat) : Nat :=
  bs.foldl (fun acc b => acc * 256 + b) 0

/-- `ReadCoderInfo` (headers/folder.go). A codec-id size of 0 skips the
id read; `readBytes 0` reads nothing, which is the same behaviour. -/
def ReadCoderInfo (s : Stream') : Except GoErr (CoderInfo × Stream') := do
  let (attributes, s) ← ReadByte s
  let codecIDSize := attributes &&& 0x0f
  let isComplexCoder := decide (attributes &&& 0x10 > 0)
  let hasAttributes := decide (attributes &&& 0x20 > 0)
  let (b, s) ← readBytes codecIDSize s
  let codecID := beBytes b
  let (numInStreams, numOutStreams, s) ←
    if isComplexCoder then do
      let (nin, s) ← ReadNumberInt s
      if nin = 0 ∨ nin > MaxInOutStreams then throw .invalidStreamCount
      let (nout, s) ← ReadNumberInt s
      if nout = 0 ∨ nout > MaxInOutStreams then throw .invalidStreamCount
      pure (nin, nout, s)
    else
      pure (1, 1, s)
  let (properties, s) ←
    if hasAttributes then do
      let (size, s) ← ReadNumberInt s
      if size = 0 ∨ size > MaxPropertyDataSize then throw .invalidPropertyDataSize
      readBytes size s
    else
      pure ([], s)
  pure ({ codecID := codecID, properties := properties,
          numInStreams := numInStreams, numOutStreams := numOutStreams }, s)

/-- `ReadBindPairsInfo` (headers/folder.go). -/
def ReadBindPairsInfo (s : Stream') : Except GoErr (BindPairsInfo × Stream') := do
  let (inIndex, s) ← ReadNumberInt s
  let (outIndex, s) ← ReadNumberInt s
  pure ({ inIndex := inIndex, outIndex := outIndex }, s)

/-- The coder loop of `ReadFolder`. -/
def readCoderInfos : Nat → Stream' → Except GoErr (List CoderInfo × Stream')
  | 0, s => .ok ([], s)
  | n + 1, s => do
    let (c, s) ← ReadCoderInfo s
    let (cs, rest) ← readCoderInfos n s
    pure (c :: cs, rest)

/-- The bind-pair loop of `ReadFolder`. -/
def readBindPairs : Nat → Stream' → Except GoErr (List BindPairsInfo × Stream')
  | 0, s => .ok ([], s)
  | n + 1, s => do
    let (bp, s) ← ReadBindPairsInfo s
    let (bps, rest) ← readBindPairs n s
    pure (bp :: bps, rest)

/-- The packed-index loop of `ReadFolder`. -/
def readNumberInts : Nat → Stream' → Except GoErr (List Nat × Stream')
  | 0, s => .ok ([], s)
  | n + 1, s => do
    let (v, s) ← ReadNumberInt s
    let (vs, rest) ← readNumberInts n s
    pure (v :: vs, rest)

/-- The single-packed-stream derivation of `ReadFolder` (headers/folder.go):
the first in-stream index not referenced by a bind pair. -/
def derivePackedIndex (total : Nat) (f : Folder) : List Nat :=
  match (List.range total).find?
      (fun i => decide (f.FindBindPairForInStream i < 0)) with
  | some i => [i]
  | none => []

/-- `ReadFolder` (headers/folder.go). -/
def ReadFolder (s : Stream') : Except GoErr (Folder × Stream') :=
  match ReadNumberInt s with
  | .error e => .error e
  | .ok (numCoders, s) =>
    if numCoders = 0 ∨ numCoders > MaxCodersInFolder then .error .invalidCoderInFolderCount
    else
      match readCoderInfos numCoders s with
      | .error e => .error e
      | .ok (coders, s) =>
        match readBindPairs (numCoders - 1) s with
        | .error e => .error e
        | .ok (bindPairs, s) =>
          let folder0 : Folder :=
            { coderInfo := coders, bindPairsInfo := bindPairs,
              packedIndices := [], unpackSizes := [], unpackCRC := 0 }
          let numInStreamsTotal := folder0.NumInStreamsTotal
          let numPackedStreams : Int := (numInStreamsTotal : Int) - (bindPairs.length : Int)
          if 1 < numPackedStreams then
            if (MaxPackedStreamsInFolder : Int) < numPackedStreams then
              .error .invalidPackedStreamsCount
            else
              match readNumberInts numPackedStreams.toNat s with
              | .error e => .error e
              | .ok (idxs, rest) => .ok ({ folder0 with packedIndices := idxs }, rest)
          else if numPackedStreams = 1 then
            .ok ({ folder0 with packedIndices := derivePackedIndex numInStreamsTotal folder0 }, s)
          else
            .ok (folder0, s)

/-- A concrete two-coder folder stream used as witness input: coder count 2,
two simple coders (ids 0x21 and 0x00), one bind pair (in 0, out 1); the
single packed stream index is derived (index 1). -/
def witnessFolderStream : Stream' := [0x02, 0x01, 0x21, 0x01, 0x00, 0x00, 0x01]

/-- The folder parsed from `witnessFolderStream`. -/
def witnessFolder : Folder :=
  { coderInfo := [⟨0x21, [], 1, 1⟩, ⟨0x00, [], 1, 1⟩],
    bindPairsInfo := [⟨0, 1⟩],
    packedIndices := [1], unpackSizes := [], unpackCRC := 0 }

/-- The element loop of `ReadBoolVector` (headers/pack_info.go): `b` and
`mask` are the mutable locals; a zero mask triggers the next byte read and
resets the mask to `0x80`. -/
def readBoolVectorAux : Nat → Nat → Nat → Stream' → Except GoErr (List Bool × Stream')
  | 0, _, _, s => .ok ([], s)
  | r + 1, b, mask, s =>
    if mask = 0 then
      match ReadByte s with
      | .error e => .error e
      | .ok (b', s') =>
        match readBoolVectorAux r b' (0x80 >>> 1) s' with
        | .error e => .error e
        | .ok (v, rest) => .ok (((b' &&& 0x80) != 0) :: v, rest)
    else
      match readBoolVectorAux r b (mask >>> 1) s with
      | .error e => .error e
      | .ok (v, rest) => .ok (((b &&& mask) != 0) :: v, rest)

/-- `ReadBoolVector` (headers/pack_info.go); the returned count accumulates
the true entries, which equals counting them in the result. -/
def ReadBoolVector (length : Nat) (s : Stream') : Except GoErr (List Bool × Nat × Stream') :=
  match readBoolVectorAux length 0 0 s with
  | .error e => .error e
  | .ok (v, rest) => .ok (v, v.count true, rest)

/-- `ReadOptionalBoolVector` (headers/pack_info.go). -/
def ReadOptionalBoolVector (length : Nat) (s : Stream') : Except GoErr (List Bool × Nat × Stream') :=
  match ReadByte s with
  | .error e => .error e
  | .ok (allDefined, s') =>
    if allDefined = 0 then ReadBoolVector length s'
    else .ok (List.replicate length true, length, s')

/-- `ReadUint32` (headers/pack_info.go): a 4-byte little-endian value. -/
def ReadUint32 (s : Stream') : Except GoErr (Nat × Stream') :=
  if s.length < 4 then .error .eof
  else .ok (leBytes (s.take 4), s.drop 4)

/-- The crc loop of `ReadDigests` (headers/digests.go): a little-endian
uint32 is read for each defined position; undefined positions keep the
zero value of the `make` allocation. -/
def readDigestsLoop : List Bool → Stream' → Except GoErr (List Nat × Stream')
  | [], s => .ok ([], s)
  | d :: ds, s =>
    if d then
      match ReadUint32 s with
      | .error e => .error e
      | .ok (v, s') =>
        match readDigestsLoop ds s' with
        | .error e => .error e
        | .ok (vs, rest) => .ok (v :: vs, rest)
    else
      match readDigestsLoop ds s with
      | .error e => .error e
      | .ok (vs, rest) => .ok (0 :: vs, rest)

/-- `ReadDigests` (headers/digests.go). -/
def ReadDigests (length : Nat) (s : Stream') : Except GoErr (List Nat × Stream') :=
  match ReadOptionalBoolVector length s with
  | .error e => .error e
  | .ok (defined, _, s') => readDigestsLoop defined s'

/-- Go `uint64` addition (wrap-around). -/
def add64 (a b : Nat) : Nat := (a + b) % 2 ^ 64

/-- Go `uint64` subtraction (wrap-around). -/
def sub64 (a b : Nat) : Nat := (a % 2 ^ 64 + (2 ^ 64 - b % 2 ^ 64)) % 2 ^ 64

/-- The inner size loop of `ReadSubStreamsInfo` (headers/streams_info.go)
for one folder under the `Size` tag: `for j := 1; j < N; j++` reads a size,
adds it to `sum` and appends it; `c` counts the remaining iterations
(`N - j`). -/
def readSizesCount : Nat → Nat → Stream' → Except GoErr (List Nat × Nat × Stream')
  | 0, sum, s => .ok ([], sum, s)
  | c + 1, sum, s =>
    match ReadNumber s with
    | .error e => .error e
    | .ok (size, s') =>
      match readSizesCount c (add64 sum size) s' with
      | .error e => .error e
      | .ok (sizes, sum', rest) => .ok (size :: sizes, sum', rest)

/-- One folder's contribution to `UnpackSizes` in `ReadSubStreamsInfo`
(headers/streams_info.go): a folder with 0 declared sub-streams is skipped;
under a `Size` tag the first `n - 1` sizes are read and
`folder.UnpackSize() - sum` (uint64) is appended; without a `Size` tag only
`folder.UnpackSize() - 0` is appended. -/
def folderSizesBlock (idIsSize : Bool) (f : Folder) (n : Nat) (s : Stream') :
    Except GoErr (List Nat × Stream') :=
  if n = 0 then .ok ([], s)
  else
    if idIsSize then
      match readSizesCount (n - 1) 0 s with
      | .error e => .error e
      | .ok (sizes, sum, rest) => .ok (sizes ++ [sub64 f.UnpackSize sum], rest)
    else .ok ([sub64 f.UnpackSize 0], s)

/-- The folders loop of `ReadSubStreamsInfo` (headers/streams_info.go),
concatenating each folder's block into `UnpackSizes`. -/
def subStreamsSizesLoop (idIsSize : Bool) : List (Folder × Nat) → Stream' →
    Except GoErr (List Nat × Stream')
  | [], s => .ok ([], s)
  | (f, n) :: fs, s =>
    match folderSizesBlock idIsSize f n s with
    | .error e => .error e
    | .ok (block, s') =>
      match subStreamsSizesLoop idIsSize fs s' with
      | .error e => .error e
      | .ok (blocks, s'') => .ok (block ++ blocks, s'')

/-- `UnpackInfo` (headers/unpack_info.go), restricted to the folder list. -/
structure UnpackInfo where
  folders : List Folder
  deriving Repr, DecidableEq

/-- `SubStreamsInfo` (headers/streams_info.go). -/
structure SubStreamsInfo where
  numUnpackStreamsInFolders : List Nat
  unpackSizes : List Nat
  digests : List Nat
  deriving Repr, DecidableEq

/-- The digest count of `ReadSubStreamsInfo` (headers/streams_info.go):
sub-streams of folders that have more than one sub-stream or whose own
`UnpackCRC` is zero. -/
def countDigests (folders : List Folder) (nums : List Nat) : Nat :=
  ((folders.zip nums).map (fun fn =>
    if 1 < fn.2 ∨ fn.1.unpackCRC = 0 then fn.2 else 0)).sum

/-- `ReadSubStreamsInfo` (headers/streams_info.go). -/
def ReadSubStreamsInfo (unpackInfo : UnpackInfo) (s : Stream') :
    Except GoErr (SubStreamsInfo × Stream') :=
  match ReadByte s with
  | .error e => .error e
  | .ok (id0, s0) =>
    match (if id0 = k7zNumUnpackStream then
        match readNumberInts unpackInfo.folders.length s0 with
        | .error e => .error e
        | .ok (nums, s') =>
          match ReadByte s' with
          | .error e => .error e
          | .ok (id1, s'') => .ok (nums, id1, s'')
      else .ok (List.replicate unpackInfo.folders.length 1, id0, s0) :
        Except GoErr (List Nat × Nat × Stream')) with
    | .error e => .error e
    | .ok (nums, id, s1) =>
      match subStreamsSizesLoop (id = k7zSize) (unpackInfo.folders.zip nums) s1 with
      | .error e => .error e
      | .ok (unpackSizes, s2) =>
        match (if id = k7zSize then ReadByte s2 else .ok (id, s2) :
            Except GoErr (Nat × Stream')) with
        | .error e => .error e
        | .ok (id2, s3) =>
          match (if id2 = k7zCRC then
              match ReadDigests (countDigests unpackInfo.folders nums) s3 with
              | .error e => .error e
              | .ok (digests, s') =>
                match ReadByte s' with
                | .error e => .error e
                | .ok (id', s'') => .ok (digests, id', s'')
            else .ok ([], id2, s3) :
              Except GoErr (List Nat × Nat × Stream')) with
          | .error e => .error e
          | .ok (digests, id4, s4) =>
            if id4 = k7zEnd then
              .ok ({ numUnpackStreamsInFolders := nums,
                     unpackSizes := unpackSizes, digests := digests }, s4)
            else .error .unexpectedPropertyID

/-- A folder with a single copy coder and unpack size 100, used as a C3
witness. -/
def witnessSizesFolder : Folder :=
  { coderInfo := [⟨0x00, [], 1, 1⟩], bindPairsInfo := [],
    packedIndices := [0], unpackSizes := [100], unpackCRC := 0 }

/-- `headers.FileInfo`, restricted to the fields the reader facade reads. -/
structure FileInfo where
  name : List Nat
  isEmptyStream : Bool
  deriving Repr, DecidableEq

/-- Behavioural model of one external `solidblock.Solidblock` sequencer:
deterministic response tables for its `Next` and `Read` methods together
with call counters. reader.go treats the results opaquely, so every
sequencer behaviour is represented by some table. `none` is Go's nil
error. -/
structure SB where
  nextFn : Nat → Option GoErr
  readFn : Nat → Nat × Option GoErr
  nextCalls : Nat
  readCalls : Nat

/-- An inert sequencer (used only as the `getD` default where Go would
crash on an out-of-range folder index). -/
def defaultSB : SB :=
  { nextFn := fun _ => some .eof, readFn := fun _ => (0, some .eof),
    nextCalls := 0, readCalls := 0 }

/-- A `Solidblock.Next()` call. -/
def SB.next (sb : SB) : Option GoErr × SB :=
  (sb.nextFn sb.nextCalls, { sb with nextCalls := sb.nextCalls + 1 })

/-- A `Solidblock.Read(p)` call: the returned count and error. -/
def SB.read (sb : SB) : (Nat × Option GoErr) × SB :=
  (sb.readFn sb.readCalls, { sb with readCalls := sb.readCalls + 1 })

/-- `go7z.Reader` (reader.go): the iteration state of the facade. -/
structure Reader where
  err : Option GoErr
  header : List FileInfo
  folderIndex : Nat
  fileIndex : Nat
  emptyStream : Bool
  solidblocks : List SB

/-- `sz.solidblocks[i].Next()`. -/
def Reader.sbNext (sz : Reader) (i : Nat) : Option GoErr × Reader :=
  let sb := sz.solidblocks.getD i defaultSB
  let (e, sb') := sb.next
  (e, { sz with solidblocks := sz.solidblocks.set i sb' })

/-- `sz.solidblocks[i].Read(p)`. -/
def Reader.sbRead (sz : Reader) (i : Nat) : (Nat × Option GoErr) × Reader :=
  let sb := sz.solidblocks.getD i defaultSB
  let (r, sb') := sb.read
  (r, { sz with solidblocks := sz.solidblocks.set i sb' })

/-- `Reader.nextFileInfo` (reader.go). -/
def Reader.nextFileInfo (sz : Reader) : Option FileInfo × Reader :=
  match sz.header[sz.fileIndex]? with
  | some fi => (some fi, { sz with fileIndex := sz.fileIndex + 1 })
  | none => (none, sz)

/-- `Reader.next` (reader.go, lower-case): advances the iteration state;
a non-EOF error from the current folder's sequencer `Next()` is compared
only against `io.EOF` and otherwise ignored, and the first `Next()` of a
newly entered folder has its return value discarded. -/
def Reader.nextInternal (sz : Reader) : (Option FileInfo × Option GoErr) × Reader :=
  match sz.nextFileInfo with
  | (none, sz) => ((none, some .eof), sz)
  | (some fi, sz) =>
    let sz := { sz with emptyStream := fi.isEmptyStream }
    if fi.isEmptyStream then ((some fi, none), sz)
    else
      match sz.sbNext sz.folderIndex with
      | (e, sz) =>
        if e = some .eof then
          let sz := { sz with folderIndex := sz.folderIndex + 1 }
          if sz.solidblocks.length ≤ sz.folderIndex then ((none, some .eof), sz)
          else
            match sz.sbNext sz.folderIndex with
            | (_, sz) => ((some fi, none), sz)
        else ((some fi, none), sz)

/-- `Reader.Next` (reader.go): returns the cached error if set, otherwise
runs `next` and caches whatever error it produced. -/
def Reader.Next (sz : Reader) : (Option FileInfo × Option GoErr) × Reader :=
  match sz.err with
  | some e => ((none, some e), sz)
  | none =>
    match sz.nextInternal with
    | ((hdr, e), sz') => ((hdr, e), { sz' with err := e })

/-- `Reader.Read` (reader.go): returns the cached error if set; an error
from the sequencer read is cached only when it is not `io.EOF`. -/
def Reader.Read (sz : Reader) : (Nat × Option GoErr) × Reader :=
  match sz.err with
  | some e => ((0, some e), sz)
  | none =>
    if sz.emptyStream then ((0, some .eof), sz)
    else
      match sz.sbRead sz.folderIndex with
      | ((n, e), sz') =>
        let sz' := if e ≠ none ∧ e ≠ some .eof then { sz' with err := e } else sz'
        ((n, e), sz')

/-- `StreamsInfo` (headers/streams_info.go). -/
structure StreamsInfo where
  packInfo : PackInfo
  unpackInfo : UnpackInfo
  subStreamsInfo : Option SubStreamsInfo
  deriving Repr, DecidableEq

/-- `headers.Header`, restricted to the fields the reader facade uses. -/
structure Header where
  mainStreamsInfo : StreamsInfo
  filesInfo : List FileInfo

/-- The coder ids registered by the `init` function of register.go:
copy, delta, lzma, lzma2, bcj2, bzip2. -/
def registeredCodecIDs : List Nat := [0x00, 0x03, 0x030101, 0x21, 0x303011b, 0x40202]

/-- `decompressor` (register.go): whether a codec id has a registered
decompressor. -/
def decompressorFound (method : Nat) : Bool := registeredCodecIDs.contains method

/-- The codec loop of `extract` (reader.go): each coder's id is looked up
in the registry; an unknown id aborts with `ErrDecompressorNotFound`.
`binder.AddCodec` itself is pure registration. -/
def checkCoders : List CoderInfo → Except GoErr Unit
  | [] => .ok ()
  | c :: cs =>
    if decompressorFound c.codecID then checkCoders cs
    else .error .decompressorNotFound

/-- The initial-inputs loop of `extract` (reader.go): position
`packedIndicesOffset + index` of each packed index must name a valid entry
of `PackInfo.PackSizes`. -/
def checkInputs : Nat → Nat → Nat → Except GoErr Unit
  | _, 0, _ => .ok ()
  | base, k + 1, numPackSizes =>
    if numPackSizes ≤ base then .error .invalidPackInfoRef
    else checkInputs (base + 1) k numPackSizes

/-- One folder's processing inside `extract` (reader.go): empty packed
indices default to `[0]`; then come the registry lookups, the
packed-stream bounds check, and the binder resolution (the external
solidblock binder's `Outputs()` plus its two result checks are abstracted
as `oracle`). Returns the number of packed indices consumed. -/
def extractFolderChecks (oracle : Folder → Except GoErr Unit)
    (numPackSizes packedIndicesOffset : Nat) (folder : Folder) : Except GoErr Nat :=
  let packedIndices := if folder.packedIndices = [] then [0] else folder.packedIndices
  match checkCoders folder.coderInfo with
  | .error e => .error e
  | .ok _ =>
    match checkInputs packedIndicesOffset packedIndices.length numPackSizes with
    | .error e => .error e
    | .ok _ =>
      match oracle folder with
      | .error e => .error e
      | .ok _ => .ok packedIndices.length

/-- The folders loop of `extract` (reader.go), with the sub-streams
slicing of sizes and digests; returns the number of solid blocks built. -/
def extractLoop (oracle : Folder → Except GoErr Unit) (numPackSizes : Nat)
    (nums? : Option (List Nat)) :
    List Folder → Nat → Nat → List Nat → List Nat → Except GoErr Nat
  | [], _, _, _, _ => .ok 0
  | folder :: folders, pio, i, sizes, crcs =>
    match extractFolderChecks oracle numPackSizes pio folder with
    | .error e => .error e
    | .ok consumed =>
      match nums? with
      | some nums =>
        match nums[i]? with
        | none => .error .invalidUnpackStreamRef
        | some off =>
          if sizes.length < off ∨ crcs.length < off then .error .invalidUnpackSizeRef
          else
            match extractLoop oracle numPackSizes nums? folders (pio + consumed) (i + 1)
                (sizes.drop off) (crcs.drop off) with
            | .error e => .error e
            | .ok n => .ok (n + 1)
      | none =>
        match extractLoop oracle numPackSizes nums? folders (pio + consumed) (i + 1)
            sizes crcs with
        | .error e => .error e
        | .ok n => .ok (n + 1)

/-- `extract` (reader.go): builds one solid block per folder of the streams
info, eagerly resolving every coder against the decompressor registry. -/
def extract (oracle : Folder → Except GoErr Unit) (si : StreamsInfo) : Except GoErr Nat :=
  match si.subStreamsInfo with
  | some ssi =>
    extractLoop oracle si.packInfo.packSizes.length
      (some ssi.numUnpackStreamsInFolders) si.unpackInfo.folders 0 0
      ssi.unpackSizes ssi.digests
  | none =>
    extractLoop oracle si.packInfo.packSizes.length none
      si.unpackInfo.folders 0 0 [] []

/-- Lines 134-140 of `Reader.init` (reader.go): after header parsing, the
main streams info is extracted eagerly; an `extract` error becomes the
return value of `init` and hence of `NewReader`/`OpenReader`. `mkSB`
supplies the behaviour of the sequencers created on success. -/
def initFromHeader (oracle : Folder → Except GoErr Unit) (mkSB : Nat → SB)
    (h : Header) : Except GoErr Reader :=
  match extract oracle h.mainStreamsInfo with
  | .error e => .error e
  | .ok n =>
    .ok { err := none, header := h.filesInfo, folderIndex := 0,
          fileIndex := 0, emptyStream := false,
          solidblocks := (List.range n).map mkSB }

/-- A single-folder archive whose only coder has the unregistered id
`0x12345`, with one non-empty file. -/
def headerUnknownCoder : Header :=
  { mainStreamsInfo :=
      { packInfo := { packPos := 0, packSizes := [4, 0] },
        unpackInfo := { folders :=
          [{ coderInfo := [⟨0x12345, [], 1, 1⟩], bindPairsInfo := [],
             packedIndices := [0], unpackSizes := [4], unpackCRC := 0 }] },
        subStreamsInfo := none },
    filesInfo := [{ name := [0x61], isEmptyStream := false }] }

/-- Sequencer behaviour for the C5 counterexample: the current sub-stream
is exhausted (`Read` gives `(0, io.EOF)`) while the folder still has a
further sub-stream (`Next` gives nil). -/
def stickyCexSB : SB :=
  { nextFn := fun _ => none, readFn := fun _ => (0, some .eof),
    nextCalls := 0, readCalls := 0 }

/-- Reader state between the first and second file of a two-file,
one-folder archive. -/
def stickyCexReader : Reader :=
  { err := none, header := [⟨[0x61], false⟩, ⟨[0x62], false⟩],
    folderIndex := 0, fileIndex := 1, emptyStream := false,
    solidblocks := [stickyCexSB] }

/-- Sequencer behaviour for the C8 witness: its `Next()` reports a real
(non-EOF) error. -/
def discardCexSB : SB :=
  { nextFn := fun _ => some GoErr.notSupported, readFn := fun _ => (0, none),
    nextCalls := 0, readCalls := 0 }

/-- A one-file reader over `discardCexSB`. -/
def discardReader : Reader :=
  { err := none, header := [⟨[0x61], false⟩], folderIndex := 0,
    fileIndex := 0, emptyStream := false, solidblocks := [discardCexSB] }

/-- `aes.BlockSize`. -/
def aesBlockSize : Nat := 16

/-- The salt-copy loop of `keyManager.stretch` (filters/aes.go):
`key[pos] = salt[pos]`. -/
def stretchCopy : List Nat → Nat → List Nat → List Nat
  | key, _, [] => key
  | key, pos, b :: rest => stretchCopy (key.set pos b) (pos + 1) rest

/-- The password-copy loop of `keyManager.stretch` (filters/aes.go),
bounded by the key length; returns the key and the final `pos`. -/
def stretchCopyPwd : List Nat → Nat → List Nat → List Nat × Nat
  | key, pos, [] => (key, pos)
  | key, pos, b :: rest =>
    if pos < key.length then stretchCopyPwd (key.set pos b) (pos + 1) rest
    else (key, pos)

/-- The zero-fill loop of `keyManager.stretch` (filters/aes.go), with the
remaining positions as fuel. -/
def zeroFillAux : Nat → List Nat → Nat → List Nat
  | 0, key, _ => key
  | f + 1, key, pos => zeroFillAux f (key.set pos 0) (pos + 1)

/-- `for ; pos < len(key); pos++ { key[pos] = 0 }`. -/
def stretchZeroFill (key : List Nat) (pos : Nat) : List Nat :=
  zeroFillAux (key.length - pos) key pos

/-- `keyManager.stretch` (filters/aes.go): the `power == 0x3F` key. -/
def stretch (salt password : List Nat) : List Nat :=
  let key0 := List.replicate aesBlockSize 0
  let key1 := stretchCopy key0 0 salt
  let kp := stretchCopyPwd key1 salt.length password
  stretchZeroFill kp.1 kp.2

/-- The specification's wording of the `power == 0x3F` key: salt, then the
UTF-16LE password bytes, truncated/zero-padded to exactly 16 bytes. -/
def specStretchKey (salt password : List Nat) : List Nat :=
  (salt ++ password ++ List.replicate aesBlockSize 0).take aesBlockSize

/-- The counter increment of `keyManager.sha256Stretch` (filters/aes.go):
`temp[i]++; if temp[i] != 0 { break }` over the 8 counter bytes. -/
def incTemp : List Nat → List Nat
  | [] => []
  | b :: rest =>
    if (b + 1) % 256 ≠ 0 then ((b + 1) % 256) :: rest
    else ((b + 1) % 256) :: incTemp rest

/-- The round loop of `keyManager.sha256Stretch` (filters/aes.go): each of
the remaining rounds writes salt, password and the counter bytes into the
running hash; the model collects the written byte stream. -/
def sha256Rounds (salt password : List Nat) : Nat → List Nat → List Nat
  | 0, _ => []
  | r + 1, temp =>
    (salt ++ password ++ temp) ++ sha256Rounds salt password r (incTemp temp)

/-- `keyManager.sha256Stretch` (filters/aes.go) with SHA-256 abstracted as
the digest function `sha` over the accumulated input. -/
def sha256Stretch (sha : List Nat → List Nat) (power : Nat)
    (salt password : List Nat) : List Nat :=
  sha (sha256Rounds salt password (2 ^ power) (List.replicate 8 0))

/-- Little-endian byte encoding of width `w`. -/
def leW : Nat → Nat → List Nat
  | 0, _ => []
  | w + 1, n => (n % 256) :: leW w (n / 256)

/-- The KDF input as the specification words it: `2^power` iterations,
each hashing salt, the password bytes, and a little-endian 64-bit counter
that starts at 0 and increments after each iteration. -/
def specKDFInput (power : Nat) (salt password : List Nat) : List Nat :=
  ((List.range (2 ^ power)).map (fun r => salt ++ password ++ leW 8 r)).flatten

/-- The reference key-derivation of the specification. -/
def specKey (sha : List Nat → List Nat) (power : Nat)
    (salt password : List Nat) : List Nat :=
  if power = 0x3f then specStretchKey salt password
  else sha (specKDFInput power salt password)

/-- The derivation performed by `keyManager.Key` (filters/aes.go) on a
cache miss. -/
def deriveKey (sha : List Nat → List Nat) (power : Nat)
    (salt password : List Nat) : List Nat :=
  if power = 0x3f then stretch salt password
  else sha256Stretch sha power salt password

/-- A password as the Go code sees it: the bytes of the Go string (UTF-8,
used to build the cache key) and its UTF-16LE encoding (hashed during key
derivation). -/
structure Password where
  utf8 : List Nat
  utf16le : List Nat
  deriving Repr, DecidableEq

/-- The cache key built by `keyManager.Key` (filters/aes.go):
`password ++ salt ++ byte(power)` as one byte string. -/
def cacheKeyOf (power : Nat) (salt : List Nat) (pw : Password) : List Nat :=
  pw.utf8 ++ salt ++ [power % 256]

/-- `keyManager` (filters/aes.go): the key cache (the Go map modelled as
an association list). -/
structure KeyManager where
  cache : List (List Nat × List Nat)
  deriving Repr, DecidableEq

/-- `keyManager.Key` (filters/aes.go): a hit under the concatenated cache
key returns the stored key; a miss derives the key and stores it. -/
def KeyManager.Key (km : KeyManager) (sha : List Nat → List Nat) (power : Nat)
    (salt : List Nat) (pw : Password) : List Nat × KeyManager :=
  let ck := cacheKeyOf power salt pw
  match km.cache.lookup ck with
  | some key => (key, km)
  | none =>
    let key := deriveKey sha power salt pw.utf16le
    (key, { cache := (ck, key) :: km.cache })

/-- Password "a": UTF-8 `[0x61]`, UTF-16LE `[0x61, 0]`. -/
def cexPwA : Password := ⟨[0x61], [0x61, 0]⟩

/-- Password "ab": UTF-8 `[0x61, 0x62]`, UTF-16LE `[0x61, 0, 0x62, 0]`. -/
def cexPwAB : Password := ⟨[0x61, 0x62], [0x61, 0, 0x62, 0]⟩

lemma shiftRight128 (i : Nat) (h : i ≤ 7) : (0x80 : Nat) >>> i = 2 ^ (7 - i) := by
  have h128 : (0x80 : Nat) = 2 ^ 7 := by norm_num
  rw [Nat.shiftRight_eq_div_pow, h128, Nat.pow_div h (by norm_num)]

lemma leadingOnes_le_eight (b : Nat) : leadingOnes b ≤ 8 := by
  have h := (List.takeWhile_sublist (l := List.range 8)
    (fun i => b.testBit (7 - i))).length_le
  simpa [leadingOnes] using h

set_option maxRecDepth 4096 in
lemma leadingOnes_bits : ∀ b < 256,
    (∀ j < leadingOnes b, b.testBit (7 - j) = true) ∧
    (leadingOnes b < 8 → b.testBit (7 - leadingOnes b) = false) := by decide

lemma readNumberAux_run (first : Nat) :
    ∀ (extra : List Nat) (i : Nat) (value : Nat) (rest : Stream'),
      i + extra.length ≤ 8 →
      (∀ b ∈ extra, b < 256) →
      value < 2 ^ (8 * i) →
      (∀ j, j < extra.length → first.testBit (7 - (i + j)) = true) →
      (i + extra.length < 8 → first.testBit (7 - (i + extra.length)) = false) →
      readNumberAux first i (8 - i) value (0x80 >>> i) (extra ++ rest) =
        .ok (value + leBytes extra * 2 ^ (8 * i) +
             (first % 2 ^ (7 - (i + extra.length))) * 2 ^ (8 * (i + extra.length)), rest) := by
  intro extra
  induction extra with
  | nil =>
    intro i value rest hbound _ _ _ hstop
    simp only [List.length_nil, Nat.add_zero] at hbound hstop ⊢
    rcases Nat.lt_or_ge i 8 with hi | hi
    · -- one more loop iteration; the continuation bit is clear
      have hmask : (0x80 : Nat) >>> i = 2 ^ (7 - i) := shiftRight128 i (by omega)
      have hbit : first.testBit (7 - i) = false := hstop hi
      have hand : (first &&& 2 ^ (7 - i) == 0) = true := by
        rw [Nat.and_two_pow, hbit]
        simp
      have hfuel : 8 - i = (8 - (i + 1)) + 1 := by omega
      rw [hfuel, hmask]
      simp only [readNumberAux, hand, if_true, List.nil_append]
      have hmod : first &&& 2 ^ (7 - i) - 1 = first % 2 ^ (7 - i) :=
        Nat.and_pow_two_sub_one_eq_mod first (7 - i)
      rw [hmod, Nat.shiftLeft_eq]
      simp [leBytes, Nat.mul_comm i 8]
    · -- i = 8: the fuel is spent, the loop returns value
      have hi8 : i = 8 := by omega
      subst hi8
      simp [readNumberAux, leBytes, Nat.mod_one]
  | cons v extra ih =>
    intro i value rest hbound hbytes hvalue hbits hstop
    simp only [List.length_cons] at hbound hstop ⊢
    have hi : i < 8 := by omega
    have hmask : (0x80 : Nat) >>> i = 2 ^ (7 - i) := shiftRight128 i (by omega)
    have hbit : first.testBit (7 - i) = true := by
      have := hbits 0 (by simp)
      simpa using this
    have handne : (first &&& 2 ^ (7 - i) == 0) = false := by
      rw [Nat.and_two_pow, hbit]
      simp
    have hfuel : 8 - i = (8 - (i + 1)) + 1 := by omega
    rw [hfuel, hmask]
    simp only [readNumberAux, handne, if_false, List.cons_append]
    have hv : v < 256 := hbytes v (by simp)
    -- the OR is a carry-free addition
    have hvalue' : value ||| (v <<< (8 * i)) = value + v * 2 ^ (8 * i) := by
      calc value ||| (v <<< (8 * i)) = value ||| v * 2 ^ (8 * i) := by
            rw [Nat.shiftLeft_eq]
        _ = v * 2 ^ (8 * i) ||| value := Nat.lor_comm _ _
        _ = 2 ^ (8 * i) * v ||| value := by rw [Nat.mul_comm v]
        _ = 2 ^ (8 * i) * v + value := (Nat.mul_add_lt_is_or hvalue v).symm
        _ = value + v * 2 ^ (8 * i) := by ring
    have hmask' : (2 ^ (7 - i) : Nat) >>> 1 = 0x80 >>> (i + 1) := by
      rw [← hmask, ← Nat.shiftRight_add]
    rw [hvalue', hmask']
    have hpow : (2 : Nat) ^ (8 * (i + 1)) = 2 ^ (8 * i) * 256 := by
      have h8 : 8 * (i + 1) = 8 * i + 8 := by ring
      rw [h8, Nat.pow_add]
    have hrec := ih (i + 1) (value + v * 2 ^ (8 * i)) rest
      (by omega)
      (fun b hb => hbytes b (by simp [hb]))
      (by
        have h1 : v * 2 ^ (8 * i) ≤ 255 * 2 ^ (8 * i) :=
          Nat.mul_le_mul_right _ (by omega)
        have h2 : (0:Nat) < 2 ^ (8 * i) := Nat.pos_pow_of_pos _ (by norm_num)
        rw [hpow]
        omega)
      (fun j hj => by
        have heq : i + (j + 1) = (i + 1) + j := by omega
        have := hbits (j + 1) (by simp; omega)
        rw [heq] at this
        exact this)
      (by
        intro h
        have heq : i + (extra.length + 1) = (i + 1) + extra.length := by omega
        have := hstop (by omega)
        rw [heq] at this
        exact this)
    rw [hrec]
    have heq : (i + 1) + extra.length = i + (extra.length + 1) := by omega
    rw [heq]
    have harith : value + v * 2 ^ (8 * i) + leBytes extra * 2 ^ (8 * (i + 1)) +
        first % 2 ^ (7 - (i + (extra.length + 1))) * 2 ^ (8 * (i + (extra.length + 1))) =
        value + leBytes (v :: extra) * 2 ^ (8 * i) +
        first % 2 ^ (7 - (i + (extra.length + 1))) * 2 ^ (8 * (i + (extra.length + 1))) := by
      simp only [leBytes]
      rw [hpow]
      ring
    rw [harith]
    simp

/-- **C1**: `ReadNumber` decodes the 7z variable-length integer: the count of
leading 1-bits of the first byte gives the number of additional bytes, those
are assembled little-endian into the low-order positions, and the remaining
bits of the first byte become the high-order bits (a first byte of `0xFF`
yields the full 64-bit value of the 8 following bytes); `ReadNumberInt`
returns the same value when it is at most `0x7FFFFFFF` and fails with
`ErrInvalidNumber` otherwise. -/
theorem readNumber_decodes_7z_numbers (first : Nat) (extra rest : Stream')
    (hfirst : first < 256) (hbytes : ∀ b ∈ extra, b < 256)
    (hlen : extra.length = leadingOnes first) :
    ReadNumber (first :: (extra ++ rest)) = .ok (specNumberValue first extra, rest) ∧
    (first = 0xFF → specNumberValue first extra = leBytes extra) ∧
    (specNumberValue first extra ≤ MaxNumber →
      ReadNumberInt (first :: (extra ++ rest)) = .ok (specNumberValue first extra, rest)) ∧
    (MaxNumber < specNumberValue first extra →
      ReadNumberInt (first :: (extra ++ rest)) = .error .invalidNumber) := by
  have hbits := leadingOnes_bits first hfirst
  have hle := leadingOnes_le_eight first
  have hrun := readNumberAux_run first extra 0 0 rest
    (by omega)
    hbytes
    (by norm_num)
    (fun j hj => by
      have := hbits.1 j (by omega)
      simpa using this)
    (by
      intro h
      have := hbits.2 (by omega)
      rw [hlen]
      simpa [hlen] using this)
  have hmain : ReadNumber (first :: (extra ++ rest)) =
      .ok (specNumberValue first extra, rest) := by
    show readNumberAux first 0 8 0 0x80 (extra ++ rest) = _
    have h8 : (8 : Nat) = 8 - 0 := rfl
    have hm : (0x80 : Nat) = 0x80 >>> 0 := rfl
    rw [h8, hm, hrun]
    simp [specNumberValue, hlen]
  refine ⟨hmain, ?_, ?_, ?_⟩
  · intro h255
    subst h255
    have : leadingOnes 0xFF = 8 := by decide
    simp [specNumberValue, this]
  · intro hsmall
    unfold ReadNumberInt
    rw [hmain]
    simp only [MaxNumber] at hsmall ⊢
    rw [if_neg (by omega)]
  · intro hbig
    unfold ReadNumberInt
    rw [hmain]
    simp only [MaxNumber] at hbig ⊢
    rw [if_pos (by omega)]

/-- Witness for theorem readNumber_decodes_7z_numbers: a concrete two-extra-byte number. -/
theorem readNumber_decodes_7z_numbers_witness :
    ReadNumber [0xC2, 5, 1] = .ok (specNumberValue 0xC2 [5, 1], []) ∧
    specNumberValue 0xC2 [5, 1] = 131333 := by
  refine ⟨(readNumber_decodes_7z_numbers 0xC2 [5, 1] []
    (by decide) (by decide) (by decide)).1, by decide⟩

lemma readPackSizesLoop_ok :
    ∀ (r : Nat) (sizes : List Nat) (i : Nat) (s : Stream') (out : List Nat) (rest : Stream'),
      i + r ≤ sizes.length →
      readPackSizesLoop sizes i r s = .ok (out, rest) →
      ∃ vals, readNumbers r s = .ok (vals, rest) ∧ vals.length = r ∧
        out = sizes.take i ++ vals ++ sizes.drop (i + r) := by
  intro r
  induction r with
  | zero =>
    intro sizes i s out rest _ h
    simp only [readPackSizesLoop] at h
    cases h
    exact ⟨[], rfl, rfl, by simp⟩
  | succ r ih =>
    intro sizes i s out rest hbound h
    simp only [readPackSizesLoop] at h
    cases hv : ReadNumber s with
    | error e => rw [hv] at h; cases h
    | ok p =>
      obtain ⟨v, s'⟩ := p
      rw [hv] at h
      have hi : i < sizes.length := by omega
      obtain ⟨vals, hvals, hlen, hout⟩ := ih (sizes.set i v) (i + 1) s' out rest
        (by simp; omega) h
      refine ⟨v :: vals, ?_, by simp [hlen], ?_⟩
      · simp only [readNumbers, hv, hvals]
      · rw [hout, List.set_eq_take_cons_drop v hi]
        have hlenA : (sizes.take i).length = i := by
          simp [List.length_take, Nat.min_eq_left (Nat.le_of_lt hi)]
        have htake : ((sizes.take i ++ v :: sizes.drop (i + 1)).take (i + 1)) =
            sizes.take i ++ [v] := by
          rw [List.take_append_eq_append_take, hlenA]
          rw [List.take_of_length_le (by omega)]
          congr 1
          have : i + 1 - i = 1 := by omega
          rw [this]
          rfl
        have hdrop : ((sizes.take i ++ v :: sizes.drop (i + 1)).drop (i + 1 + r)) =
            sizes.drop (i + (r + 1)) := by
          rw [List.drop_append_eq_append_drop, hlenA]
          rw [List.drop_of_length_le (by omega)]
          have h1 : i + 1 + r - i = r + 1 := by omega
          rw [h1]
          simp only [List.nil_append, List.drop_succ_cons, List.drop_drop]
          congr 1
          omega
        rw [htake, hdrop]
        simp

lemma replicate_split (k : Nat) :
    (List.replicate (k + 1) (0 : Nat)).take 0 = [] ∧
    (List.replicate (k + 1) (0 : Nat)).drop (0 + k) = [0] := by
  constructor
  · simp
  · have h : List.replicate (k + 1) (0 : Nat) = List.replicate k 0 ++ [0] := by
      rw [← List.replicate_succ']
    rw [h, List.drop_append_eq_append_drop]
    simp

lemma readPackInfoLoop_ok :
    ∀ (fuel k : Nat) (pi0 : PackInfo) (s : Stream') (pinfo : PackInfo) (rest : Stream'),
      readPackInfoLoop k pi0 fuel s = .ok (pinfo, rest) →
      pinfo.packPos = pi0.packPos ∧
      (pinfo.packSizes = pi0.packSizes ∨
        ∃ (s1 s2 : Stream') (vals : List Nat),
          readNumbers k s1 = .ok (vals, s2) ∧ vals.length = k ∧
          pinfo.packSizes = vals ++ [0]) := by
  intro fuel
  induction fuel with
  | zero => intro k pi0 s pinfo rest h; cases h
  | succ fuel ih =>
    intro k pi0 s pinfo rest h
    cases hb : ReadByte s with
    | error e =>
      simp only [readPackInfoLoop, hb] at h
      cases h
    | ok p =>
      obtain ⟨id, s'⟩ := p
      simp only [readPackInfoLoop, hb] at h
      by_cases hsz : id = k7zSize
      · rw [if_pos hsz] at h
        cases hl : readPackSizesLoop (List.replicate (k + 1) 0) 0 k s' with
        | error e =>
          simp only [hl] at h
          cases h
        | ok q =>
          obtain ⟨sizes, s''⟩ := q
          simp only [hl] at h
          obtain ⟨vals, hvals, hlen, hout⟩ :=
            readPackSizesLoop_ok k (List.replicate (k + 1) 0) 0 s' sizes s'' (by simp) hl
          have hsizes : sizes = vals ++ [0] := by
            rw [hout, (replicate_split k).1, (replicate_split k).2]
            simp
          obtain ⟨hpos, hrest⟩ := ih k { pi0 with packSizes := sizes } s'' pinfo rest h
          refine ⟨hpos, .inr ?_⟩
          rcases hrest with heq | ⟨s1, s2, vals', h1, h2, h3⟩
          · exact ⟨s', s'', vals, hvals, hlen, by rw [heq, hsizes]⟩
          · exact ⟨s1, s2, vals', h1, h2, h3⟩
      · rw [if_neg hsz] at h
        by_cases hcrc : id = k7zCRC
        · rw [if_pos hcrc] at h
          cases h
        · rw [if_neg hcrc] at h
          by_cases hend : id = k7zEnd
          · rw [if_pos hend] at h
            cases h
            exact ⟨rfl, .inl rfl⟩
          · rw [if_neg hend] at h
            cases h

/-- **C10**: when `ReadPackInfo` succeeds after a `Size` tag with declared
pack-stream count `k`, the resulting `PackSizes` has length `k + 1`: its
first `k` entries are the `k` numbers read from the input and the final
entry is always 0, never populated. (Without a `Size` tag `PackSizes`
stays empty.) -/
theorem readPackInfo_sizes_extra_zero_entry (s : Stream') (pinfo : PackInfo) (rest : Stream')
    (h : ReadPackInfo s = .ok (pinfo, rest)) :
    ∃ (pos : Nat) (s1 : Stream') (k : Nat) (s2 : Stream'),
      ReadNumber s = .ok (pos, s1) ∧ ReadNumberInt s1 = .ok (k, s2) ∧
      pinfo.packPos = pos ∧
      (pinfo.packSizes = [] ∨
        ∃ (s3 s4 : Stream') (vals : List Nat),
          readNumbers k s3 = .ok (vals, s4) ∧ vals.length = k ∧
          pinfo.packSizes = vals ++ [0] ∧
          pinfo.packSizes.length = k + 1 ∧ pinfo.packSizes.getLast? = some 0) := by
  cases hn : ReadNumber s with
  | error e =>
    simp only [ReadPackInfo, hn] at h
    cases h
  | ok p =>
    obtain ⟨pos, s1⟩ := p
    cases hk : ReadNumberInt s1 with
    | error e =>
      simp only [ReadPackInfo, hn, hk] at h
      cases h
    | ok q =>
      obtain ⟨k, s2⟩ := q
      simp only [ReadPackInfo, hn, hk] at h
      obtain ⟨hpos, hrest⟩ := readPackInfoLoop_ok (s2.length + 1) k _ s2 pinfo rest h
      refine ⟨pos, s1, k, s2, rfl, hk, hpos, ?_⟩
      rcases hrest with heq | ⟨s3, s4, vals, h1, h2, h3⟩
      · exact .inl heq
      · refine .inr ⟨s3, s4, vals, h1, h2, h3, ?_, ?_⟩
        · rw [h3]; simp [h2]
        · rw [h3]
          simp [List.getLast?_append]

/-- Witness for theorem readPackInfo_sizes_extra_zero_entry: a pack info
with two declared pack streams of sizes 5 and 7. -/
theorem readPackInfo_sizes_extra_zero_entry_witness :
    ∃ (pos : Nat) (s1 : Stream') (k : Nat) (s2 : Stream'),
      ReadNumber [0, 2, 9, 5, 7, 0] = .ok (pos, s1) ∧ ReadNumberInt s1 = .ok (k, s2) ∧
      (PackInfo.mk 0 [5, 7, 0]).packPos = pos ∧
      ((PackInfo.mk 0 [5, 7, 0]).packSizes = [] ∨
        ∃ (s3 s4 : Stream') (vals : List Nat),
          readNumbers k s3 = .ok (vals, s4) ∧ vals.length = k ∧
          (PackInfo.mk 0 [5, 7, 0]).packSizes = vals ++ [0] ∧
          (PackInfo.mk 0 [5, 7, 0]).packSizes.length = k + 1 ∧
          (PackInfo.mk 0 [5, 7, 0]).packSizes.getLast? = some 0) :=
  readPackInfo_sizes_extra_zero_entry [0, 2, 9, 5, 7, 0] (PackInfo.mk 0 [5, 7, 0]) []
    (by rfl)

lemma readCoderInfos_length :
    ∀ (n : Nat) (s : Stream') (cs : List CoderInfo) (rest : Stream'),
      readCoderInfos n s = .ok (cs, rest) → cs.length = n := by
  intro n
  induction n with
  | zero =>
    intro s cs rest h
    cases h
    rfl
  | succ n ih =>
    intro s cs rest h
    simp only [readCoderInfos, bind, Except.bind] at h
    cases hc : ReadCoderInfo s with
    | error e =>
      simp only [hc] at h
      cases h
    | ok p =>
      obtain ⟨c, s'⟩ := p
      simp only [hc] at h
      cases hcs : readCoderInfos n s' with
      | error e =>
        simp only [hcs] at h
        cases h
      | ok q =>
        obtain ⟨cs', rest'⟩ := q
        simp only [hcs, pure, Except.pure] at h
        cases h
        simpa using ih s' cs' rest hcs

lemma readBindPairs_length :
    ∀ (n : Nat) (s : Stream') (bps : List BindPairsInfo) (rest : Stream'),
      readBindPairs n s = .ok (bps, rest) → bps.length = n := by
  intro n
  induction n with
  | zero =>
    intro s bps rest h
    cases h
    rfl
  | succ n ih =>
    intro s bps rest h
    simp only [readBindPairs, bind, Except.bind] at h
    cases hc : ReadBindPairsInfo s with
    | error e =>
      simp only [hc] at h
      cases h
    | ok p =>
      obtain ⟨bp, s'⟩ := p
      simp only [hc] at h
      cases hcs : readBindPairs n s' with
      | error e =>
        simp only [hcs] at h
        cases h
      | ok q =>
        obtain ⟨bps', rest'⟩ := q
        simp only [hcs, pure, Except.pure] at h
        cases h
        simpa using ih s' bps' rest hcs

lemma exists_unbound_in_index (pairs : List BindPairsInfo) (total : Nat)
    (h : pairs.length < total) :
    ∃ i, i < total ∧ ∀ bp ∈ pairs, bp.inIndex ≠ i := by
  by_contra hcon
  push_neg at hcon
  have hsub : Finset.range total ⊆ (pairs.map (fun bp => bp.inIndex)).toFinset := by
    intro i hi
    simp only [Finset.mem_range] at hi
    obtain ⟨bp, hbp, heq⟩ := hcon i hi
    simp only [List.mem_toFinset, List.mem_map]
    exact ⟨bp, hbp, heq⟩
  have hcard := Finset.card_le_card hsub
  rw [Finset.card_range] at hcard
  have hle : (pairs.map (fun bp => bp.inIndex)).toFinset.card ≤ pairs.length := by
    calc (pairs.map (fun bp => bp.inIndex)).toFinset.card
        ≤ (pairs.map (fun bp => bp.inIndex)).length := List.toFinset_card_le _
      _ = pairs.length := List.length_map _ _
  omega

lemma findBindPairForInStream_neg_iff (f : Folder) (i : Nat) :
    f.FindBindPairForInStream i < 0 ↔ ∀ bp ∈ f.bindPairsInfo, bp.inIndex ≠ i := by
  unfold Folder.FindBindPairForInStream
  cases hf : f.bindPairsInfo.findIdx? (fun bp => bp.inIndex == i) with
  | some j =>
    simp only
    constructor
    · intro hneg
      exact absurd hneg (by omega)
    · intro hall
      have : f.bindPairsInfo.findIdx? (fun bp => bp.inIndex == i) = none := by
        rw [List.findIdx?_eq_none_iff]
        intro bp hbp
        simp [hall bp hbp]
      rw [hf] at this
      cases this
  | none =>
    simp only
    constructor
    · intro _
      intro bp hbp heq
      rw [List.findIdx?_eq_none_iff] at hf
      have := hf bp hbp
      simp [heq] at this
    · intro _
      norm_num

lemma find?_range_minimal (p : Nat → Bool) (total i : Nat)
    (h : (List.range total).find? p = some i) :
    p i = true ∧ i < total ∧ ∀ j, j < i → p j = false := by
  rw [List.find?_eq_some] at h
  obtain ⟨hp, as, bs, heq, has⟩ := h
  have hlen : as.length < total := by
    have hc := congrArg List.length heq
    simp at hc
    omega
  have hi : i = as.length := by
    have h1 : (List.range total)[as.length]? = some as.length := by
      rw [List.getElem?_eq_getElem (by simpa using hlen)]
      rw [List.getElem_range]
    rw [heq] at h1
    rw [List.getElem?_append_right (Nat.le_refl _)] at h1
    simp at h1
    omega
  have has' : as = List.range as.length := by
    have h2 : (as ++ i :: bs).take as.length = as := List.take_left as (i :: bs)
    rw [← heq, List.take_range, Nat.min_eq_left (by omega)] at h2
    exact h2.symm
  refine ⟨hp, by omega, ?_⟩
  intro j hj
  have hjmem : j ∈ as := by
    rw [has', List.mem_range]
    omega
  have := has j hjmem
  simpa using this

/-- **C2**: a successful `ReadFolder` first reads a coder count in `1..=4`
(failing otherwise), then one `CoderInfo` per coder, then exactly
`numCoders - 1` bind pairs; explicit packed indices are read from the input
if and only if the derived packed-stream count (total input streams minus
bind-pair count) exceeds one, and when it is exactly one the single packed
index is derived as the first in-stream index not referenced by any bind
pair, with nothing read. -/
theorem readFolder_structure (s : Stream') (f : Folder) (rest : Stream')
    (h : ReadFolder s = .ok (f, rest)) :
    ∃ (n : Nat) (s1 : Stream') (coders : List CoderInfo) (s2 : Stream')
      (pairs : List BindPairsInfo) (s3 : Stream'),
      ReadNumberInt s = .ok (n, s1) ∧ 1 ≤ n ∧ n ≤ MaxCodersInFolder ∧
      readCoderInfos n s1 = .ok (coders, s2) ∧ f.coderInfo = coders ∧
      coders.length = n ∧
      readBindPairs (n - 1) s2 = .ok (pairs, s3) ∧ f.bindPairsInfo = pairs ∧
      pairs.length = n - 1 ∧
      ((1 < (f.NumInStreamsTotal : Int) - (pairs.length : Int) →
        (f.NumInStreamsTotal : Int) - (pairs.length : Int) ≤ MaxPackedStreamsInFolder ∧
        ∃ idxs, readNumberInts (f.NumInStreamsTotal - pairs.length) s3 = .ok (idxs, rest) ∧
          f.packedIndices = idxs) ∧
       ((f.NumInStreamsTotal : Int) - (pairs.length : Int) = 1 →
        rest = s3 ∧
        ∃ i, i < f.NumInStreamsTotal ∧ f.FindBindPairForInStream i < 0 ∧
          (∀ j, j < i → ¬(f.FindBindPairForInStream j < 0)) ∧
          f.packedIndices = [i]) ∧
       ((f.NumInStreamsTotal : Int) - (pairs.length : Int) < 1 →
        rest = s3 ∧ f.packedIndices = [])) := by
  cases hn : ReadNumberInt s with
  | error e =>
    simp only [ReadFolder, hn] at h
    cases h
  | ok p =>
    obtain ⟨n, s1⟩ := p
    simp only [ReadFolder, hn] at h
    by_cases hg : n = 0 ∨ n > MaxCodersInFolder
    · rw [if_pos hg] at h
      cases h
    · rw [if_neg hg] at h
      push_neg at hg
      cases hc : readCoderInfos n s1 with
      | error e =>
        simp only [hc] at h
        cases h
      | ok q =>
        obtain ⟨coders, s2⟩ := q
        simp only [hc] at h
        cases hbp : readBindPairs (n - 1) s2 with
        | error e =>
          simp only [hbp] at h
          cases h
        | ok r =>
          obtain ⟨pairs, s3⟩ := r
          simp only [hbp] at h
          have hcl : coders.length = n := readCoderInfos_length n s1 coders s2 hc
          have hpl : pairs.length = n - 1 := readBindPairs_length (n - 1) s2 pairs s3 hbp
          set folder0 : Folder :=
            { coderInfo := coders, bindPairsInfo := pairs,
              packedIndices := [], unpackSizes := [], unpackCRC := 0 } with hf0
          set total := folder0.NumInStreamsTotal with htot
          set nps : Int := (total : Int) - (pairs.length : Int) with hnps
          have htotmk : ∀ pidx : List Nat,
              (Folder.mk coders pairs pidx [] 0).NumInStreamsTotal = total := fun _ => rfl
          have hfindmk : ∀ (pidx : List Nat) (j : Nat),
              (Folder.mk coders pairs pidx [] 0).FindBindPairForInStream j =
                folder0.FindBindPairForInStream j := fun _ _ => rfl
          by_cases h1 : 1 < nps
          · rw [if_pos h1] at h
            by_cases h4 : (MaxPackedStreamsInFolder : Int) < nps
            · rw [if_pos h4] at h
              cases h
            · rw [if_neg h4] at h
              cases hi : readNumberInts nps.toNat s3 with
              | error e =>
                simp only [hi] at h
                cases h
              | ok w =>
                obtain ⟨idxs, rest'⟩ := w
                simp only [hi] at h
                cases h
                refine ⟨n, s1, coders, s2, pairs, s3, rfl, by omega, by omega,
                  hc, rfl, hcl, hbp, rfl, hpl, ?_, ?_, ?_⟩ <;>
                  simp only [htotmk]
                · intro _
                  refine ⟨by omega, idxs, ?_, rfl⟩
                  have hnat : total - pairs.length = nps.toNat := by omega
                  rw [hnat]
                  exact hi
                · intro hcontra
                  omega
                · intro hcontra
                  omega
          · rw [if_neg h1] at h
            by_cases h2 : nps = 1
            · rw [if_pos h2] at h
              -- the single packed index is derived, nothing is read
              have hlt : pairs.length < total := by omega
              obtain ⟨i0, hi0, hall⟩ := exists_unbound_in_index pairs total hlt
              have hp0 : (fun i => decide (folder0.FindBindPairForInStream i < 0)) i0 = true := by
                simp only [decide_eq_true_eq]
                rw [findBindPairForInStream_neg_iff]
                exact hall
              have hsome : ((List.range total).find?
                  (fun i => decide (folder0.FindBindPairForInStream i < 0))).isSome := by
                rw [List.find?_isSome]
                exact ⟨i0, List.mem_range.mpr hi0, hp0⟩
              obtain ⟨imin, himin⟩ := Option.isSome_iff_exists.mp hsome
              have hmin := find?_range_minimal _ total imin himin
              have hder : derivePackedIndex total folder0 = [imin] := by
                unfold derivePackedIndex
                rw [himin]
              rw [hder] at h
              rw [Except.ok.injEq, Prod.mk.injEq] at h
              obtain ⟨hfeq, hreq⟩ := h
              subst hfeq
              refine ⟨n, s1, coders, s2, pairs, s3, rfl, by omega, by omega,
                hc, rfl, hcl, hbp, rfl, hpl, ?_, ?_, ?_⟩ <;>
                simp only [htotmk]
              · intro hcontra
                omega
              · intro _
                refine ⟨hreq.symm, imin, by omega, ?_, ?_, rfl⟩
                · have := hmin.1
                  rw [hfindmk]
                  simpa using this
                · intro j hj
                  have hfalse := hmin.2.2 j hj
                  rw [hfindmk]
                  intro hcon
                  rw [← decide_eq_true_eq (p := folder0.FindBindPairForInStream j < 0)] at hcon
                  rw [hfalse] at hcon
                  cases hcon
              · intro hcontra
                omega
            · rw [if_neg h2] at h
              rw [Except.ok.injEq, Prod.mk.injEq] at h
              obtain ⟨hfeq, hreq⟩ := h
              subst hfeq
              refine ⟨n, s1, coders, s2, pairs, s3, rfl, by omega, by omega,
                hc, rfl, hcl, hbp, rfl, hpl, ?_, ?_, ?_⟩ <;>
                simp only [← htot]
              · intro hcontra
                exact absurd hcontra (by omega)
              · intro hcontra
                exact absurd hcontra (by omega)
              · intro _
                exact ⟨hreq.symm, trivial⟩

/-- Witness for theorem readFolder_structure at `witnessFolderStream`. -/
theorem readFolder_structure_witness :
    ∃ (n : Nat) (s1 : Stream') (coders : List CoderInfo) (s2 : Stream')
      (pairs : List BindPairsInfo) (s3 : Stream'),
      ReadNumberInt witnessFolderStream = .ok (n, s1) ∧ 1 ≤ n ∧ n ≤ MaxCodersInFolder ∧
      readCoderInfos n s1 = .ok (coders, s2) ∧ witnessFolder.coderInfo = coders ∧
      coders.length = n ∧
      readBindPairs (n - 1) s2 = .ok (pairs, s3) ∧ witnessFolder.bindPairsInfo = pairs ∧
      pairs.length = n - 1 ∧
      ((1 < (witnessFolder.NumInStreamsTotal : Int) - (pairs.length : Int) →
        (witnessFolder.NumInStreamsTotal : Int) - (pairs.length : Int) ≤ MaxPackedStreamsInFolder ∧
        ∃ idxs, readNumberInts (witnessFolder.NumInStreamsTotal - pairs.length) s3 = .ok (idxs, []) ∧
          witnessFolder.packedIndices = idxs) ∧
       ((witnessFolder.NumInStreamsTotal : Int) - (pairs.length : Int) = 1 →
        ([] : Stream') = s3 ∧
        ∃ i, i < witnessFolder.NumInStreamsTotal ∧ witnessFolder.FindBindPairForInStream i < 0 ∧
          (∀ j, j < i → ¬(witnessFolder.FindBindPairForInStream j < 0)) ∧
          witnessFolder.packedIndices = [i]) ∧
       ((witnessFolder.NumInStreamsTotal : Int) - (pairs.length : Int) < 1 →
        ([] : Stream') = s3 ∧ witnessFolder.packedIndices = [])) :=
  readFolder_structure witnessFolderStream witnessFolder [] (by rfl)

lemma readBoolVectorAux_length :
    ∀ (r b mask : Nat) (s : Stream') (v : List Bool) (rest : Stream'),
      readBoolVectorAux r b mask s = .ok (v, rest) → v.length = r := by
  intro r
  induction r with
  | zero =>
    intro b mask s v rest h
    cases h
    rfl
  | succ r ih =>
    intro b mask s v rest h
    simp only [readBoolVectorAux] at h
    by_cases hm : mask = 0
    · rw [if_pos hm] at h
      cases hb : ReadByte s with
      | error e =>
        simp only [hb] at h
        cases h
      | ok p =>
        obtain ⟨b', s'⟩ := p
        simp only [hb] at h
        cases hrec : readBoolVectorAux r b' (0x80 >>> 1) s' with
        | error e =>
          simp only [hrec] at h
          cases h
        | ok q =>
          obtain ⟨v', rest'⟩ := q
          simp only [hrec] at h
          cases h
          simpa using ih b' (0x80 >>> 1) s' v' rest hrec
    · rw [if_neg hm] at h
      cases hrec : readBoolVectorAux r b (mask >>> 1) s with
      | error e =>
        simp only [hrec] at h
        cases h
      | ok q =>
        obtain ⟨v', rest'⟩ := q
        simp only [hrec] at h
        cases h
        simpa using ih b (mask >>> 1) s v' rest hrec

lemma readOptionalBoolVector_length (n : Nat) (s : Stream') (defined : List Bool)
    (cnt : Nat) (rest : Stream')
    (h : ReadOptionalBoolVector n s = .ok (defined, cnt, rest)) :
    defined.length = n := by
  simp only [ReadOptionalBoolVector] at h
  cases hb : ReadByte s with
  | error e =>
    simp only [hb] at h
    cases h
  | ok p =>
    obtain ⟨allDefined, s'⟩ := p
    simp only [hb] at h
    by_cases hz : allDefined = 0
    · rw [if_pos hz] at h
      simp only [ReadBoolVector] at h
      cases haux : readBoolVectorAux n 0 0 s' with
      | error e =>
        simp only [haux] at h
        cases h
      | ok q =>
        obtain ⟨v, rest'⟩ := q
        simp only [haux] at h
        cases h
        exact readBoolVectorAux_length n 0 0 s' defined rest haux
    · rw [if_neg hz] at h
      cases h
      simp

lemma readDigestsLoop_spec :
    ∀ (defined : List Bool) (s : Stream') (crcs : List Nat) (rest : Stream'),
      readDigestsLoop defined s = .ok (crcs, rest) →
      crcs.length = defined.length ∧
      ∀ i, i < defined.length → defined.getD i true = false → crcs.getD i 1 = 0 := by
  intro defined
  induction defined with
  | nil =>
    intro s crcs rest h
    cases h
    exact ⟨rfl, fun i hi => by simp at hi⟩
  | cons d ds ih =>
    intro s crcs rest h
    simp only [readDigestsLoop] at h
    by_cases hd : d = true
    · rw [if_pos hd] at h
      cases hu : ReadUint32 s with
      | error e =>
        simp only [hu] at h
        cases h
      | ok p =>
        obtain ⟨v, s'⟩ := p
        simp only [hu] at h
        cases hrec : readDigestsLoop ds s' with
        | error e =>
          simp only [hrec] at h
          cases h
        | ok q =>
          obtain ⟨vs, rest'⟩ := q
          simp only [hrec] at h
          cases h
          obtain ⟨hlen, hzero⟩ := ih s' vs rest hrec
          refine ⟨by simpa using hlen, ?_⟩
          intro i hi hfalse
          cases i with
          | zero => simp [hd] at hfalse
          | succ j =>
            simp only [List.getD_cons_succ] at hfalse ⊢
            exact hzero j (by simpa using hi) hfalse
    · rw [if_neg hd] at h
      cases hrec : readDigestsLoop ds s with
      | error e =>
        simp only [hrec] at h
        cases h
      | ok q =>
        obtain ⟨vs, rest'⟩ := q
        simp only [hrec] at h
        cases h
        obtain ⟨hlen, hzero⟩ := ih s vs rest hrec
        refine ⟨by simpa using hlen, ?_⟩
        intro i hi hfalse
        cases i with
        | zero => simp
        | succ j =>
          simp only [List.getD_cons_succ] at hfalse ⊢
          exact hzero j (by simpa using hi) hfalse

/-- **C9**: a successful `ReadDigests(r, n)` returns exactly `n` CRCs, and
every position whose defined-bit in the leading optional bool vector is
false holds the value 0 (the zero value the downstream CRC check treats as
"no check"). -/
theorem readDigests_zero_for_undefined (n : Nat) (s : Stream') (crcs : List Nat)
    (rest : Stream') (h : ReadDigests n s = .ok (crcs, rest)) :
    crcs.length = n ∧
    ∃ (defined : List Bool) (cnt : Nat) (s' : Stream'),
      ReadOptionalBoolVector n s = .ok (defined, cnt, s') ∧ defined.length = n ∧
      ∀ i, i < n → defined.getD i true = false → crcs.getD i 1 = 0 := by
  simp only [ReadDigests] at h
  cases ho : ReadOptionalBoolVector n s with
  | error e =>
    simp only [ho] at h
    cases h
  | ok p =>
    obtain ⟨defined, cnt, s'⟩ := p
    simp only [ho] at h
    have hdeflen : defined.length = n :=
      readOptionalBoolVector_length n s defined cnt s' ho
    obtain ⟨hlen, hzero⟩ := readDigestsLoop_spec defined s' crcs rest h
    exact ⟨by omega, defined, cnt, s', rfl, hdeflen,
      fun i hi => hzero i (by omega)⟩

/-- Witness for theorem readDigests_zero_for_undefined: three digests, the
middle one undefined (defined vector byte `0b10100000`), reading CRCs
`0x04030201` and `0x08070605`. -/
theorem readDigests_zero_for_undefined_witness :
    (ReadDigests 3 [0x00, 0xA0, 1, 2, 3, 4, 5, 6, 7, 8] =
      .ok ([0x04030201, 0, 0x08070605], []) ∧
    (0x04030201 : Nat) = leBytes [1, 2, 3, 4]) ∧
    ([0x04030201, 0, 0x08070605] : List Nat).getD 1 1 = 0 := by
  refine ⟨⟨by rfl, by rfl⟩, ?_⟩
  have := readDigests_zero_for_undefined 3 [0x00, 0xA0, 1, 2, 3, 4, 5, 6, 7, 8]
    [0x04030201, 0, 0x08070605] [] (by rfl)
  obtain ⟨-, defined, cnt, s', ho, hlen, hzero⟩ := this
  have hdef : defined = [true, false, true] := by
    have : ReadOptionalBoolVector 3 [0x00, 0xA0, 1, 2, 3, 4, 5, 6, 7, 8] =
        .ok ([true, false, true], 2, [1, 2, 3, 4, 5, 6, 7, 8]) := by rfl
    rw [this] at ho
    cases ho
    rfl
  apply hzero 1 (by omega)
  rw [hdef]
  rfl

lemma readSizesCount_spec :
    ∀ (c : Nat) (sum0 : Nat) (s : Stream') (sizes : List Nat) (sum : Nat) (rest : Stream'),
      sum0 < 2 ^ 64 →
      readSizesCount c sum0 s = .ok (sizes, sum, rest) →
      sizes.length = c ∧ readNumbers c s = .ok (sizes, rest) ∧
      sum = (sum0 + sizes.sum) % 2 ^ 64 := by
  intro c
  induction c with
  | zero =>
    intro sum0 s sizes sum rest hlt h
    cases h
    refine ⟨rfl, rfl, ?_⟩
    simp only [List.sum_nil, Nat.add_zero]
    omega
  | succ c ih =>
    intro sum0 s sizes sum rest hlt h
    simp only [readSizesCount] at h
    cases hn : ReadNumber s with
    | error e =>
      simp only [hn] at h
      cases h
    | ok p =>
      obtain ⟨size, s'⟩ := p
      simp only [hn] at h
      cases hrec : readSizesCount c (add64 sum0 size) s' with
      | error e =>
        simp only [hrec] at h
        cases h
      | ok q =>
        obtain ⟨sizes', sum', rest'⟩ := q
        simp only [hrec] at h
        cases h
        obtain ⟨hlen, hread, hsum⟩ := ih (add64 sum0 size) s' sizes' sum rest
          (Nat.mod_lt _ (by norm_num)) hrec
        refine ⟨by simpa using hlen, ?_, ?_⟩
        · simp only [readNumbers, hn, hread]
        · rw [hsum, add64]
          simp only [List.sum_cons]
          rw [Nat.mod_add_mod]
          congr 1
          omega

/-- **C3**: for a folder with `n ≥ 1` declared sub-streams processed by
`ReadSubStreamsInfo` under a `Size` tag, exactly `n - 1` sizes are read
from the input, and the final appended size is the folder's unpack size
(the size of the first output stream not consumed by a bind pair,
`Folder.UnpackSize`) minus their sum in uint64 arithmetic; for `n = 1`
nothing is read and the appended size is exactly the folder's unpack
size. -/
theorem subStreamsInfo_sizes (f : Folder) (n : Nat) (s : Stream')
    (sizes : List Nat) (sum : Nat) (rest : Stream')
    (hn : 1 ≤ n) (hu : f.UnpackSize < 2 ^ 64)
    (h : readSizesCount (n - 1) 0 s = .ok (sizes, sum, rest)) :
    folderSizesBlock true f n s = .ok (sizes ++ [sub64 f.UnpackSize sum], rest) ∧
    sizes.length = n - 1 ∧
    readNumbers (n - 1) s = .ok (sizes, rest) ∧
    sum = sizes.sum % 2 ^ 64 ∧
    (sizes.sum ≤ f.UnpackSize → sub64 f.UnpackSize sum = f.UnpackSize - sizes.sum) ∧
    (n = 1 → sizes = [] ∧ rest = s ∧
      folderSizesBlock true f n s = .ok ([f.UnpackSize], s)) := by
  obtain ⟨hlen, hread, hsum⟩ := readSizesCount_spec (n - 1) 0 s sizes sum rest
    (by norm_num) h
  have hblock : folderSizesBlock true f n s = .ok (sizes ++ [sub64 f.UnpackSize sum], rest) := by
    unfold folderSizesBlock
    rw [if_neg (by omega), if_pos rfl, h]
  refine ⟨hblock, hlen, hread, by simpa using hsum, ?_, ?_⟩
  · intro hle
    rw [sub64, hsum]
    simp only [Nat.zero_add]
    omega
  · intro h1
    subst h1
    simp only [Nat.sub_self, readSizesCount] at h
    cases h
    refine ⟨rfl, rfl, ?_⟩
    have hz : sub64 f.UnpackSize 0 = f.UnpackSize := by
      rw [sub64]
      omega
    unfold folderSizesBlock
    rw [if_neg (by omega), if_pos rfl]
    simp only [readSizesCount, hz]
    simp

/-- Witness for theorem subStreamsInfo_sizes: three sub-streams with sizes
10, 20 read and the last (70) derived from the folder's unpack size 100. -/
theorem subStreamsInfo_sizes_witness :
    folderSizesBlock true witnessSizesFolder 3 [0x0A, 0x14] =
      .ok ([10, 20] ++ [sub64 witnessSizesFolder.UnpackSize 30], []) ∧
    ([10, 20] : List Nat).length = 3 - 1 ∧
    readNumbers (3 - 1) [0x0A, 0x14] = .ok ([10, 20], []) ∧
    (30 : Nat) = ([10, 20] : List Nat).sum % 2 ^ 64 ∧
    (([10, 20] : List Nat).sum ≤ witnessSizesFolder.UnpackSize →
      sub64 witnessSizesFolder.UnpackSize 30 =
        witnessSizesFolder.UnpackSize - ([10, 20] : List Nat).sum) ∧
    (3 = 1 → ([10, 20] : List Nat) = [] ∧ ([] : Stream') = [0x0A, 0x14] ∧
      folderSizesBlock true witnessSizesFolder 3 [0x0A, 0x14] =
        .ok ([witnessSizesFolder.UnpackSize], [0x0A, 0x14])) :=
  subStreamsInfo_sizes witnessSizesFolder 3 [0x0A, 0x14] [10, 20] 30 []
    (by omega) (by decide) (by rfl)

/-- Counterexample to **C4**: for an archive whose folder declares the
unregistered coder id `0x12345`, the failure with `DecompressorNotFound`
already happens inside `init` (`NewReader`), before any `Next()` call can
be made — not on the first `Next()` that would enter the folder. -/
theorem decompressorNotFound_at_init_counterexample :
    initFromHeader (fun _ => .ok ()) (fun _ => defaultSB) headerUnknownCoder =
      .error .decompressorNotFound ∧
    (headerUnknownCoder.filesInfo.length = 1 ∧
      (headerUnknownCoder.filesInfo.getD 0 ⟨[], true⟩).isEmptyStream = false) := by
  exact ⟨rfl, rfl, rfl⟩

/-- **C4 (amended)**: an archive whose first folder's first coder has no
registered decompressor fails with `DecompressorNotFound` during reader
initialisation (`extract` called from `init`), for every binder behaviour;
no `Next()` call is ever possible on such an archive. -/
theorem decompressorNotFound_fails_at_init (oracle : Folder → Except GoErr Unit)
    (mkSB : Nat → SB) (h : Header) (fbad : Folder) (fs : List Folder)
    (c : CoderInfo) (cs : List CoderInfo)
    (hfolders : h.mainStreamsInfo.unpackInfo.folders = fbad :: fs)
    (hcoders : fbad.coderInfo = c :: cs)
    (hunknown : decompressorFound c.codecID = false) :
    initFromHeader oracle mkSB h = .error .decompressorNotFound := by
  have hchk : checkCoders fbad.coderInfo = .error .decompressorNotFound := by
    rw [hcoders]
    simp only [checkCoders, hunknown]
    rw [if_neg (by simp [hunknown])]
  have hfc : ∀ pio, extractFolderChecks oracle
      h.mainStreamsInfo.packInfo.packSizes.length pio fbad =
      .error .decompressorNotFound := by
    intro pio
    unfold extractFolderChecks
    rw [hchk]
  unfold initFromHeader extract
  cases hss : h.mainStreamsInfo.subStreamsInfo with
  | none =>
    rw [hfolders]
    simp only [extractLoop, hfc]
  | some ssi =>
    rw [hfolders]
    simp only [extractLoop, hfc]

/-- Witness for theorem decompressorNotFound_fails_at_init at the concrete
single-folder archive `headerUnknownCoder`. -/
theorem decompressorNotFound_fails_at_init_witness :
    initFromHeader (fun _ => .ok ()) (fun _ => defaultSB) headerUnknownCoder =
      .error .decompressorNotFound :=
  decompressorNotFound_fails_at_init (fun _ => .ok ()) (fun _ => defaultSB)
    headerUnknownCoder
    { coderInfo := [⟨0x12345, [], 1, 1⟩], bindPairsInfo := [],
      packedIndices := [0], unpackSizes := [4], unpackCRC := 0 } []
    ⟨0x12345, [], 1, 1⟩ [] (by rfl) (by rfl) (by decide)

lemma nextInternal_err (sz : Reader) :
    ∀ hdr er sz', sz.nextInternal = ((hdr, er), sz') → er = none ∨ er = some .eof := by
  intro hdr er sz' h
  unfold Reader.nextInternal at h
  cases hfi : sz.nextFileInfo with
  | mk fi? sz1 =>
    rw [hfi] at h
    cases fi? with
    | none =>
      simp only at h
      cases h
      exact .inr rfl
    | some fi =>
      simp only at h
      split at h
      · cases h
        exact .inl rfl
      · split at h
        · split at h
          · cases h
            exact .inr rfl
          · cases h
            exact .inl rfl
        · cases h
          exact .inl rfl

/-- **C8**: `Reader.Next` never surfaces an error produced by a folder's
sub-stream sequencer during that call: every error it returns is either
the previously cached sticky error or `io.EOF`, and when the current
folder's sequencer `Next()` returns anything other than `io.EOF` (a nil
result or a real error alike) the `FileInfo` is returned with a nil
error. -/
theorem next_discards_sequencer_errors (sz : Reader) :
    (∀ fi? e sz', Reader.Next sz = ((fi?, some e), sz') → sz.err = some e ∨ e = .eof) ∧
    (sz.err = none → ∀ fi, sz.header[sz.fileIndex]? = some fi →
      fi.isEmptyStream = false →
      ((sz.solidblocks.getD sz.folderIndex defaultSB).nextFn
        (sz.solidblocks.getD sz.folderIndex defaultSB).nextCalls ≠ some .eof) →
      (Reader.Next sz).1 = (some fi, none)) := by
  constructor
  · intro fi? e sz' h
    cases her : sz.err with
    | some e0 =>
      simp only [Reader.Next, her] at h
      rw [Prod.mk.injEq, Prod.mk.injEq] at h
      obtain ⟨⟨-, h2⟩, -⟩ := h
      exact .inl h2
    | none =>
      simp only [Reader.Next, her] at h
      rw [Prod.mk.injEq, Prod.mk.injEq] at h
      obtain ⟨⟨-, h2⟩, -⟩ := h
      have hni := nextInternal_err sz (sz.nextInternal).1.1 (sz.nextInternal).1.2
        (sz.nextInternal).2 rfl
      rcases hni with hnone | heof
      · rw [hnone] at h2
        cases h2
      · rw [heof] at h2
        cases h2
        exact .inr rfl
  · intro her fi hfi hes hne
    have hni1 : (sz.nextInternal).1 = (some fi, none) := by
      unfold Reader.nextInternal Reader.nextFileInfo
      simp only [hfi]
      simp only [hes, Bool.false_eq_true, if_false]
      rw [if_neg (by simpa [Reader.sbNext, SB.next] using hne)]
    simp only [Reader.Next, her]
    rw [← hni1]

/-- **C5 (amended)**: the failure cache of reader.go is absorbing for the
errors it stores: once `Next()` has returned any non-nil error, or `Read()`
a non-EOF error, the error is cached and every later `Next()` returns it
unchanged and every later `Read()` returns it with 0 bytes; an `io.EOF`
from `Read()` alone (end of the current file) is not cached. -/
theorem reader_sticky_errors (sz : Reader) (e : GoErr) :
    (sz.err = some e → Reader.Next sz = ((none, some e), sz) ∧
      Reader.Read sz = ((0, some e), sz)) ∧
    (∀ fi? e' sz', Reader.Next sz = ((fi?, some e'), sz') → sz'.err = some e') ∧
    (∀ n e' sz', Reader.Read sz = ((n, some e'), sz') → e' ≠ .eof → sz'.err = some e') := by
  refine ⟨?_, ?_, ?_⟩
  · intro her
    constructor
    · simp only [Reader.Next, her]
    · simp only [Reader.Read, her]
  · intro fi? e' sz' h
    cases her : sz.err with
    | some e0 =>
      simp only [Reader.Next, her] at h
      rw [Prod.mk.injEq, Prod.mk.injEq] at h
      obtain ⟨⟨-, h2⟩, h3⟩ := h
      cases h2
      rw [← h3]
      exact her
    | none =>
      simp only [Reader.Next, her] at h
      rw [Prod.mk.injEq, Prod.mk.injEq] at h
      obtain ⟨⟨-, h2⟩, h3⟩ := h
      rw [← h3, h2]
  · intro n e' sz' h hne
    cases her : sz.err with
    | some e0 =>
      simp only [Reader.Read, her] at h
      rw [Prod.mk.injEq, Prod.mk.injEq] at h
      obtain ⟨⟨-, h2⟩, h3⟩ := h
      cases h2
      rw [← h3]
      exact her
    | none =>
      simp only [Reader.Read, her] at h
      by_cases hemp : sz.emptyStream
      · rw [if_pos hemp] at h
        rw [Prod.mk.injEq, Prod.mk.injEq] at h
        obtain ⟨⟨-, h2⟩, -⟩ := h
        cases h2
        exact absurd rfl hne
      · rw [if_neg hemp] at h
        rw [Prod.mk.injEq, Prod.mk.injEq] at h
        obtain ⟨⟨-, h2⟩, h3⟩ := h
        rw [← h3]
        rw [if_pos ?_]
        · exact h2
        · rw [h2]
          refine ⟨by simp, ?_⟩
          simp only [ne_eq, Option.some.injEq]
          exact fun hcon => hne hcon

/-- Counterexample to **C5** as stated: `Read()` returns the non-nil error
`io.EOF` at the end of the current file, yet the subsequent `Next()` does
not return that error — it succeeds with the next `FileInfo` and a nil
error, because reader.go never caches an `io.EOF` coming from `Read`. -/
theorem read_eof_not_sticky_counterexample :
    (Reader.Read stickyCexReader).1 = (0, some GoErr.eof) ∧
    (Reader.Next (Reader.Read stickyCexReader).2).1 =
      (some ⟨[0x62], false⟩, none) ∧
    some GoErr.eof ≠ (none : Option GoErr) := by
  refine ⟨rfl, rfl, by simp⟩

/-- Witness for theorem reader_sticky_errors: a reader with a cached
`NotSupported` error returns it from both `Next` and `Read`. -/
theorem reader_sticky_errors_witness :
    Reader.Next { stickyCexReader with err := some GoErr.notSupported } =
      ((none, some GoErr.notSupported),
        { stickyCexReader with err := some GoErr.notSupported }) ∧
    Reader.Read { stickyCexReader with err := some GoErr.notSupported } =
      ((0, some GoErr.notSupported),
        { stickyCexReader with err := some GoErr.notSupported }) :=
  (reader_sticky_errors { stickyCexReader with err := some GoErr.notSupported }
    GoErr.notSupported).1 rfl

/-- Witness for theorem next_discards_sequencer_errors: although the
folder's sequencer `Next()` fails with `NotSupported`, `Reader.Next`
returns the `FileInfo` with a nil error. -/
theorem next_discards_sequencer_errors_witness :
    (Reader.Next discardReader).1 = (some ⟨[0x61], false⟩, none) :=
  (next_discards_sequencer_errors discardReader).2 rfl ⟨[0x61], false⟩ rfl rfl
    (by decide)

lemma set_take_succ (key : List Nat) (pos b : Nat) (h : pos < key.length) :
    (key.set pos b).take (pos + 1) = key.take pos ++ [b] := by
  rw [List.set_eq_take_cons_drop b h, List.take_append_eq_append_take]
  have hl : (key.take pos).length = pos := by
    simp [Nat.min_eq_left (Nat.le_of_lt h)]
  rw [List.take_of_length_le (by omega), hl]
  have h1 : pos + 1 - pos = 1 := by omega
  rw [h1]
  rfl

lemma set_drop_high (key : List Nat) (pos b q : Nat) (h : pos < q) :
    (key.set pos b).drop q = key.drop q := by
  rw [List.drop_set, if_pos h]

lemma stretchCopy_spec :
    ∀ (salt key : List Nat) (pos : Nat), pos + salt.length ≤ key.length →
      stretchCopy key pos salt = key.take pos ++ salt ++ key.drop (pos + salt.length) := by
  intro salt
  induction salt with
  | nil =>
    intro key pos _
    simp [stretchCopy]
  | cons b rest ih =>
    intro key pos hb
    simp only [List.length_cons] at hb
    have hpos : pos < key.length := by omega
    simp only [stretchCopy]
    rw [ih (key.set pos b) (pos + 1) (by simp; omega)]
    rw [set_take_succ key pos b hpos, set_drop_high key pos b _ (by omega)]
    have h1 : pos + 1 + rest.length = pos + (rest.length + 1) := by omega
    rw [h1]
    simp

lemma stretchCopyPwd_spec :
    ∀ (pw key : List Nat) (pos : Nat), pos ≤ key.length →
      stretchCopyPwd key pos pw =
        (key.take pos ++ pw.take (key.length - pos) ++
           key.drop (pos + min pw.length (key.length - pos)),
         pos + min pw.length (key.length - pos)) := by
  intro pw
  induction pw with
  | nil =>
    intro key pos _
    simp [stretchCopyPwd]
  | cons b rest ih =>
    intro key pos hpos
    simp only [stretchCopyPwd]
    by_cases hlt : pos < key.length
    · rw [if_pos hlt]
      rw [ih (key.set pos b) (pos + 1) (by simp; omega)]
      simp only [List.length_set]
      rw [set_take_succ key pos b hlt]
      have hmin : min (rest.length + 1) (key.length - pos) =
          1 + min rest.length (key.length - (pos + 1)) := by omega
      have htk : (b :: rest).take (key.length - pos) =
          b :: rest.take (key.length - (pos + 1)) := by
        have h2 : key.length - pos = (key.length - (pos + 1)) + 1 := by omega
        rw [h2]
        rfl
      rw [set_drop_high key pos b _ (by omega)]
      rw [Prod.mk.injEq]
      constructor
      · rw [htk]
        have h3 : pos + 1 + min rest.length (key.length - (pos + 1)) =
            pos + min (rest.length + 1) (key.length - pos) := by omega
        rw [h3]
        simp
      · simp only [List.length_cons]
        omega
    · rw [if_neg hlt]
      have hle : key.length = pos := by omega
      rw [Prod.mk.injEq]
      constructor
      · rw [hle]
        simp
      · rw [hle]
        simp

lemma zeroFillAux_spec :
    ∀ (f : Nat) (key : List Nat) (pos : Nat), f = key.length - pos →
      zeroFillAux f key pos = key.take pos ++ List.replicate (key.length - pos) 0 := by
  intro f
  induction f with
  | zero =>
    intro key pos h
    have : key.length ≤ pos := by omega
    simp [zeroFillAux, ← h, List.take_of_length_le this]
  | succ f ih =>
    intro key pos h
    have hpos : pos < key.length := by omega
    simp only [zeroFillAux]
    rw [ih (key.set pos 0) (pos + 1) (by simp; omega)]
    simp only [List.length_set]
    rw [set_take_succ key pos 0 hpos]
    have h1 : key.length - pos = (key.length - (pos + 1)) + 1 := by omega
    rw [h1, List.replicate_succ]
    simp

lemma stretch_eq_spec (salt pw : List Nat) (hs : salt.length ≤ 16) :
    stretch salt pw = specStretchKey salt pw := by
  have hmain : stretchZeroFill
      (stretchCopyPwd (stretchCopy (List.replicate 16 0) 0 salt) salt.length pw).1
      (stretchCopyPwd (stretchCopy (List.replicate 16 0) 0 salt) salt.length pw).2 =
      List.take 16 (salt ++ pw ++ List.replicate 16 0) := ?_
  · exact hmain
  rw [stretchCopy_spec salt (List.replicate 16 0) 0 (by simp; omega)]
  simp only [List.take_zero, List.nil_append, List.drop_replicate, Nat.zero_add]
  set key1 : List Nat := salt ++ List.replicate (16 - salt.length) 0 with hkey1
  have hlen1 : key1.length = 16 := by
    simp [hkey1]
    omega
  rw [stretchCopyPwd_spec pw key1 salt.length (by omega)]
  simp only [hlen1]
  have htake1 : key1.take salt.length = salt := by
    rw [hkey1]
    exact List.take_left _ _
  have hdrop1 : ∀ q, salt.length ≤ q → key1.drop q =
      List.replicate (16 - q) 0 := by
    intro q hq
    rw [hkey1, List.drop_append_eq_append_drop]
    rw [List.drop_of_length_le (by omega), List.drop_replicate]
    simp
    omega
  rw [htake1, hdrop1 _ (by omega)]
  set m := min pw.length (16 - salt.length) with hm
  set key2 : List Nat := salt ++ pw.take (16 - salt.length) ++
    List.replicate (16 - (salt.length + m)) 0 with hkey2
  have htklen : (pw.take (16 - salt.length)).length = m := by
    simp [hm, Nat.min_comm]
  have hlen2 : key2.length = 16 := by
    simp only [hkey2, List.length_append, List.length_replicate, htklen]
    omega
  unfold stretchZeroFill
  rw [zeroFillAux_spec _ key2 (salt.length + m) rfl]
  rw [hlen2]
  have htk2 : key2.take (salt.length + m) =
      salt ++ pw.take (16 - salt.length) := by
    rw [hkey2, List.append_assoc, List.take_append_eq_append_take]
    rw [List.take_of_length_le (l := salt) (by omega)]
    congr 1
    have h1 : salt.length + m - salt.length = m := by omega
    rw [h1]
    exact List.take_left' htklen
  rw [htk2]
  have hsplit1 : List.take 16 (salt ++ pw ++ List.replicate 16 0) =
      salt ++ List.take (16 - salt.length) (pw ++ List.replicate 16 0) := by
    rw [List.append_assoc, List.take_append_eq_append_take,
      List.take_of_length_le (l := salt) hs]
  have hsplit2 : List.take (16 - salt.length) (pw ++ List.replicate 16 (0 : Nat)) =
      List.take (16 - salt.length) pw ++
        List.replicate (min (16 - salt.length - pw.length) 16) 0 := by
    rw [List.take_append_eq_append_take, List.take_replicate]
  rw [hsplit1, hsplit2, List.append_assoc]
  have hcount : 16 - (salt.length + m) = min (16 - salt.length - pw.length) 16 := by
    omega
  rw [hcount]

lemma incTemp_leW : ∀ (w n : Nat), n + 1 < 256 ^ w → incTemp (leW w n) = leW w (n + 1) := by
  intro w
  induction w with
  | zero =>
    intro n h
    simp at h
  | succ w ih =>
    intro n h
    have hp : (256 : Nat) ^ (w + 1) = 256 * 256 ^ w := by
      rw [pow_succ]
      ring
    simp only [leW, incTemp]
    by_cases hc : (n % 256 + 1) % 256 = 0
    · have h255 : n % 256 = 255 := by omega
      rw [if_neg (by simpa using hc)]
      have hdiv : n / 256 + 1 < 256 ^ w := by
        have h1 : n + 1 = 256 * (n / 256 + 1) := by omega
        rw [hp] at h
        omega
      rw [ih (n / 256) hdiv]
      have h1 : (n % 256 + 1) % 256 = (n + 1) % 256 := by omega
      have h2 : n / 256 + 1 = (n + 1) / 256 := by omega
      rw [h1, h2]
    · rw [if_pos (by simpa using hc)]
      have h1 : (n % 256 + 1) % 256 = (n + 1) % 256 := by omega
      have h2 : n / 256 = (n + 1) / 256 := by omega
      rw [h1, h2]

lemma sha256Rounds_eq (salt pw : List Nat) :
    ∀ (r start : Nat), start + r < 256 ^ 8 →
      sha256Rounds salt pw r (leW 8 start) =
        ((List.range r).map (fun j => salt ++ pw ++ leW 8 (start + j))).flatten := by
  intro r
  induction r with
  | zero =>
    intro start _
    simp [sha256Rounds]
  | succ r ih =>
    intro start h
    simp only [sha256Rounds]
    rw [incTemp_leW 8 start (by omega)]
    rw [ih (start + 1) (by omega)]
    rw [List.range_succ_eq_map]
    simp only [List.map_cons, List.map_map, List.flatten_cons, Nat.add_zero]
    congr 1
    refine congrArg List.flatten (List.map_congr_left ?_)
    intro j _
    simp only [Function.comp]
    congr 2
    omega

lemma leW8_zero : leW 8 0 = List.replicate 8 0 := by decide

/-- **C6**: the AES key derivation of filters/aes.go equals the reference
definition: for `power == 0x3F` the key is salt followed by the UTF-16LE
password bytes, truncated/zero-padded to exactly 16 bytes; otherwise it is
the digest (by any hash function `sha`, standing for SHA-256) of `2^power`
iterations, each hashing salt, the UTF-16LE password bytes, and a
little-endian 64-bit counter starting at 0 and incremented after each
iteration. `pw` is the UTF-16LE-encoded password byte list. -/
theorem aes_key_derivation (sha : List Nat → List Nat) (power : Nat)
    (salt pw : List Nat) (hsalt : salt.length ≤ 16) (hpow : power ≤ 0x3f) :
    deriveKey sha power salt pw = specKey sha power salt pw := by
  unfold deriveKey specKey
  by_cases hp : power = 0x3f
  · rw [if_pos hp, if_pos hp]
    exact stretch_eq_spec salt pw hsalt
  · rw [if_neg hp, if_neg hp]
    unfold sha256Stretch specKDFInput
    congr 1
    have hlt : 0 + 2 ^ power < 256 ^ 8 := by
      have h1 : 2 ^ power ≤ 2 ^ 62 := Nat.pow_le_pow_right (by norm_num) (by omega)
      have h2 : (256 : Nat) ^ 8 = 2 ^ 64 := by norm_num
      have h3 : (2 : Nat) ^ 62 < 2 ^ 64 := by norm_num
      omega
    rw [← leW8_zero, sha256Rounds_eq salt pw (2 ^ power) 0 hlt]
    congr 1
    congr 1
    funext j
    rw [Nat.zero_add]

/-- Witness for theorem aes_key_derivation: power 2, a 2-byte salt and a
1-character password, with the first 4 input bytes as stand-in digest. -/
theorem aes_key_derivation_witness :
    deriveKey (fun l => List.take 4 l) 2 [1, 2] [3, 0] =
      specKey (fun l => List.take 4 l) 2 [1, 2] [3, 0] :=
  aes_key_derivation (fun l => List.take 4 l) 2 [1, 2] [3, 0]
    (by decide) (by decide)

/-- Counterexample to **C7**: the tuples `(0x3F, [0x62], "a")` and
`(0x3F, [], "ab")` are distinct, but their concatenated cache keys
coincide (`"ab" ++ [0x3F]`), so the second `Key` call returns the key
cached for the first tuple, which differs from the cache-free derivation
for the second tuple. -/
theorem aes_cache_collision_counterexample :
    ((KeyManager.Key ⟨[]⟩ id 0x3f [0x62] cexPwA).1 =
      (KeyManager.Key (KeyManager.Key ⟨[]⟩ id 0x3f [0x62] cexPwA).2
        id 0x3f [] cexPwAB).1) ∧
    (KeyManager.Key (KeyManager.Key ⟨[]⟩ id 0x3f [0x62] cexPwA).2
        id 0x3f [] cexPwAB).1 ≠
      deriveKey id 0x3f [] cexPwAB.utf16le ∧
    ¬(([0x62] : List Nat) = [] ∧ cexPwA = cexPwAB) := by
  refine ⟨by rfl, by decide, by decide⟩

/-- **C7 (amended)**: the cache is transparent whenever the concatenated
byte strings `password ++ salt ++ byte(power)` of the two tuples differ:
a `Key` call for the second tuple, made after a call for the first from a
cache with no entry for the second tuple's cache key, returns exactly the
cache-free derivation for the second tuple. (Distinct tuples with equal
concatenations, as in the counterexample, are confused.) -/
theorem aes_cache_transparent_on_distinct_keys (sha : List Nat → List Nat)
    (km : KeyManager) (p1 p2 : Nat) (s1 s2 : List Nat) (pw1 pw2 : Password)
    (hck : cacheKeyOf p1 s1 pw1 ≠ cacheKeyOf p2 s2 pw2)
    (hmiss : km.cache.lookup (cacheKeyOf p2 s2 pw2) = none) :
    (KeyManager.Key (KeyManager.Key km sha p1 s1 pw1).2 sha p2 s2 pw2).1 =
      deriveKey sha p2 s2 pw2.utf16le := by
  unfold KeyManager.Key
  cases h1 : km.cache.lookup (cacheKeyOf p1 s1 pw1) with
  | some key =>
    simp only [h1]
    rw [hmiss]
  | none =>
    simp only [h1]
    have hbeq : (cacheKeyOf p2 s2 pw2 == cacheKeyOf p1 s1 pw1) = false := by
      rw [beq_eq_false_iff_ne]
      exact fun hcon => hck hcon.symm
    simp only [List.lookup, hbeq]
    rw [hmiss]

/-- Witness for theorem aes_cache_transparent_on_distinct_keys: two tuples
with different salts (and so different cache keys) on an empty cache. -/
theorem aes_cache_transparent_on_distinct_keys_witness :
    (KeyManager.Key (KeyManager.Key ⟨[]⟩ id 2 [1] cexPwA).2 id 3 [] cexPwA).1 =
      deriveKey id 3 [] cexPwA.utf16le :=
  aes_cache_transparent_on_distinct_keys id ⟨[]⟩ 2 3 [1] [] cexPwA cexPwA
    (by decide) (by rfl)

end Go7z
